import Mathlib

/-!
# Tomahawk: playback cursor, source registry, resolution pipeline and logger

A shallow embedding of `src/libtomahawk/sourceplaylistinterface.cpp`, of
`src/libtomahawk/utils/logger.cpp`, of the registry declared in
`src/libtomahawk/sourcelist.h` and of the resolution pipeline that the
specification describes, with the properties of these components stated and
proved over the embedding.

Conventions of the embedding.

* A `QSharedPointer<T>` that may be null is an `Option T`; dereferencing a null
  pointer is the fault `Fault.nullDereference`, so a method that dereferences
  returns `Except Fault _`.
* A method returns an `Outcome`: its return value, the receiver after the call
  and the effects it performed (debug output, `connect` calls, pipeline
  submissions), in program order.
* Object identity is the unique key of the data model: the username of a
  Source and the id of a Query.
* An `unsigned int` is a natural number taken modulo `2^32`, an `int` an
  integer; the conversions between the two are explicit.
-/

namespace Tomahawk

/-! ## Data model -/

/-- One playable candidate (`Tomahawk::Result`, declared in `result.h`). The
score is kept in thousandths, so that `900` stands for `0.9`. -/
structure Result where
  backend : String
  priority : Nat
  score : Nat
  track : String
deriving DecidableEq

/-- A track request (`Tomahawk::Query`, declared in `query.h`). The field
`results` is the list that the accessor `results()` yields, in the order in
which the entries are held; its entries are Results, never null handles. -/
structure Query where
  id : Nat
  artist : String
  track : String
  results : List Result
deriving DecidableEq

/-- The track collection of a peer (`Tomahawk::Collection`). -/
structure Collection where
  tracks : List Query
deriving DecidableEq

/-- A peer or the local node (`Tomahawk::Source`, declared in `source.h`).
`currentTrack` is a nullable `query_ptr`. -/
structure Source where
  id : Int
  username : String
  friendlyName : String
  online : Bool
  isLocal : Bool
  isWeb : Bool
  collection : Collection
  currentTrack : Option Query
deriving DecidableEq

/-- What goes wrong when a method cannot return. -/
inductive Fault where
  | nullDereference
deriving DecidableEq

/-- The object a connection listens to. -/
inductive Sender where
  | source (username : String)
  | query (id : Nat)
deriving DecidableEq

/-- The Qt signals that the cursor connects to. -/
inductive Signal where
  | playbackStarted
  | resultsAdded
  | resolvingFinished
deriving DecidableEq

/-- The slots of `SourcePlaylistInterface`. -/
inductive Slot where
  | onSourcePlaybackStarted
  | resolveResultsAdded
  | resolvingFinished
deriving DecidableEq

/-- One observable action of a method, in program order. `resolve q flag` is a
call `Pipeline::instance()->resolve( q, flag )`; `pipeline.h` is not among the
sources, and the second parameter is the one the specification calls `fast`. -/
inductive Effect where
  | debug (parts : List String)
  | connect (sender : Sender) (signal : Signal) (slot : Slot)
  | resolve (query : Query) (fast : Bool)
deriving DecidableEq

/-- The playback cursor: `SourcePlaylistInterface` with its one data member. -/
structure SourcePlaylistInterface where
  m_source : Source
deriving DecidableEq

/-- The result of a method call: return value, receiver afterwards, effects. -/
structure Outcome (α : Type) where
  value : α
  self : SourcePlaylistInterface
  effects : List Effect
deriving DecidableEq

/-! ## `sourceplaylistinterface.cpp` -/

namespace SourcePlaylistInterface

/-- The text of `Q_FUNC_INFO` inside `siblingItem`. -/
def funcInfoSiblingItem : String :=
  "Tomahawk::result_ptr Tomahawk::SourcePlaylistInterface::siblingItem(int)"

/-- The text of `Q_FUNC_INFO` inside `nextItem`. -/
def funcInfoNextItem : String :=
  "Tomahawk::result_ptr Tomahawk::SourcePlaylistInterface::nextItem()"

/-- The text of `Q_FUNC_INFO` inside `onSourcePlaybackStarted`. -/
def funcInfoOnSourcePlaybackStarted : String :=
  "void Tomahawk::SourcePlaylistInterface::onSourcePlaybackStarted(const Tomahawk::query_ptr&) const"

/-- The text of `Q_FUNC_INFO` inside `resolveResultsAdded`. -/
def funcInfoResolveResultsAdded : String :=
  "void Tomahawk::SourcePlaylistInterface::resolveResultsAdded(const QList<Tomahawk::result_ptr>&) const"

/-- The text of `Q_FUNC_INFO` inside `resolvingFinished`. -/
def funcInfoResolvingFinished : String :=
  "void Tomahawk::SourcePlaylistInterface::resolvingFinished(bool) const"

/-- The constructor (lines 28-33): stores the source and connects its
`playbackStarted` signal to `onSourcePlaybackStarted`. -/
def new (source : Source) : Outcome Unit :=
  { value := ()
    self := { m_source := source }
    effects :=
      [Effect.connect (Sender.source source.username) Signal.playbackStarted
        Slot.onSourcePlaybackStarted] }

/-- `SourcePlaylistInterface::siblingItem( int itemsAway )`, lines 36-48. The
argument is `Q_UNUSED`. After the debug line, `m_source->currentTrack()` is
dereferenced; an empty `results()` gives a second debug line and a null
`result_ptr`, a non-empty one gives `results().first()`. -/
def siblingItem (c : SourcePlaylistInterface) (_itemsAway : Int) :
    Except Fault (Outcome (Option Result)) :=
  match c.m_source.currentTrack with
  | none => Except.error Fault.nullDereference
  | some q =>
    match q.results with
    | [] =>
      Except.ok
        { value := none
          self := c
          effects :=
            [Effect.debug [funcInfoSiblingItem],
             Effect.debug [funcInfoSiblingItem, " Results were empty for current track"]] }
    | r :: _ =>
      Except.ok { value := some r, self := c, effects := [Effect.debug [funcInfoSiblingItem]] }

/-- `SourcePlaylistInterface::nextItem()`, lines 51-62. After the debug line,
`m_source->currentTrack()` is dereferenced; an empty `results()` gives a second
debug line and a null `result_ptr`, a non-empty one gives `results().first()`. -/
def nextItem (c : SourcePlaylistInterface) : Except Fault (Outcome (Option Result)) :=
  match c.m_source.currentTrack with
  | none => Except.error Fault.nullDereference
  | some q =>
    match q.results with
    | [] =>
      Except.ok
        { value := none
          self := c
          effects :=
            [Effect.debug [funcInfoNextItem],
             Effect.debug [funcInfoNextItem, " Results were empty for current track"]] }
    | r :: _ =>
      Except.ok { value := some r, self := c, effects := [Effect.debug [funcInfoNextItem]] }

/-- `SourcePlaylistInterface::tracks()`, lines 65-69. -/
def tracks (c : SourcePlaylistInterface) : Outcome (List Query) :=
  { value := c.m_source.collection.tracks, self := c, effects := [] }

/-- `SourcePlaylistInterface::onSourcePlaybackStarted( query )`, lines 72-79:
one debug line, two `connect` calls on the query, then
`Pipeline::instance()->resolve( query, true )`. -/
def onSourcePlaybackStarted (c : SourcePlaylistInterface) (query : Query) : Outcome Unit :=
  { value := ()
    self := c
    effects :=
      [Effect.debug [funcInfoOnSourcePlaybackStarted],
       Effect.connect (Sender.query query.id) Signal.resultsAdded Slot.resolveResultsAdded,
       Effect.connect (Sender.query query.id) Signal.resolvingFinished Slot.resolvingFinished,
       Effect.resolve query true] }

/-- `SourcePlaylistInterface::resolveResultsAdded( results )`, lines 82-90. -/
def resolveResultsAdded (c : SourcePlaylistInterface) (results : List Result) : Outcome Unit :=
  { value := ()
    self := c
    effects :=
      Effect.debug [funcInfoResolveResultsAdded] ::
        results.map (fun ptr => Effect.debug ["Found result: ", ptr.track]) }

/-- `SourcePlaylistInterface::resolvingFinished( hasResults )`, lines 92-96. -/
def resolvingFinished (c : SourcePlaylistInterface) (hasResults : Bool) : Outcome Unit :=
  { value := ()
    self := c
    effects :=
      [Effect.debug [funcInfoResolvingFinished, " and has results? : ",
        if hasResults then "true" else "false"]] }

end SourcePlaylistInterface

/-- The value a call returned, when it returned. -/
def returned {α : Type} (r : Except Fault (Outcome α)) : Option α :=
  match r with
  | Except.ok o => some o.value
  | Except.error _ => none

/-- The receiver after a call, when the call returned. -/
def receiverAfter {α : Type} (r : Except Fault (Outcome α)) : Option SourcePlaylistInterface :=
  match r with
  | Except.ok o => some o.self
  | Except.error _ => none

/-- The queries submitted to the pipeline by a run of effects, in order. -/
def submissions : List Effect → List Query
  | [] => []
  | Effect.resolve q _ :: rest => q :: submissions rest
  | _ :: rest => submissions rest

/-- The connections made by a run of effects, in order. -/
def connections : List Effect → List (Sender × Signal × Slot)
  | [] => []
  | Effect.connect s g t :: rest => (s, g, t) :: connections rest
  | _ :: rest => connections rest

/-- Delivery of the Source signal `playbackStarted( query )` to the cursor:
each connection of that signal of that source to `onSourcePlaybackStarted`
runs the slot once, in connection order. -/
def deliverPlaybackStarted (conns : List (Sender × Signal × Slot))
    (c : SourcePlaylistInterface) (query : Query) : List Effect :=
  match conns with
  | [] => []
  | (s, g, t) :: rest =>
    if s = Sender.source c.m_source.username ∧ g = Signal.playbackStarted
        ∧ t = Slot.onSourcePlaybackStarted then
      (SourcePlaylistInterface.onSourcePlaybackStarted c query).effects
        ++ deliverPlaybackStarted rest c query
    else deliverPlaybackStarted rest c query

/-! ## `QMap` -/

/-- A `QMap<K, V>` of Qt: key-value pairs held in ascending key order, at most
one pair per key. -/
abbrev QMap (K V : Type) := List (K × V)

/-- The `operator<` of `QString`: lexicographic comparison of the characters. -/
def lexLt : List Char → List Char → Bool
  | _, [] => false
  | [], _ :: _ => true
  | a :: as, b :: bs => if a < b then true else if b < a then false else lexLt as bs

/-- A key type of `QMap`: its `operator<`, under which two keys of which
neither is less than the other are the same key. -/
class QMapKey (K : Type) where
  lt : K → K → Bool
  eq_of_not_lt : ∀ a b : K, lt a b = false → lt b a = false → a = b

instance : QMapKey String where
  lt a b := lexLt a.data b.data
  eq_of_not_lt a b h₁ h₂ := by
    have key : ∀ x y : List Char, lexLt x y = false → lexLt y x = false → x = y := by
      intro x
      induction x with
      | nil =>
        intro y hxy _
        cases y with
        | nil => rfl
        | cons c cs => simp [lexLt] at hxy
      | cons c cs ih =>
        intro y hxy hyx
        cases y with
        | nil => simp [lexLt] at hyx
        | cons d ds =>
          simp only [lexLt] at hxy hyx
          by_cases hcd : c < d
          · simp [hcd] at hxy
          · by_cases hdc : d < c
            · simp [hdc] at hyx
            · simp only [hcd, hdc, if_false] at hxy hyx
              have hc : c = d := le_antisymm (not_lt.1 hdc) (not_lt.1 hcd)
              rw [hc, ih ds hxy hyx]
    exact String.ext (key a.data b.data h₁ h₂)

instance : QMapKey Int where
  lt a b := decide (a < b)
  eq_of_not_lt a b h₁ h₂ := by
    simp only [decide_eq_false_iff_not, not_lt] at h₁ h₂
    exact le_antisymm h₂ h₁

namespace QMap

variable {K V : Type}

/-- `QMap::keys()`. -/
def keys (m : QMap K V) : List K := m.map Prod.fst

/-- `QMap::values()`, in ascending key order. -/
def values (m : QMap K V) : List V := m.map Prod.snd

/-- `QMap::size()`. -/
def size (m : QMap K V) : Nat := m.length

/-- `QMap::contains( key )`. -/
def contains [DecidableEq K] (m : QMap K V) (key : K) : Bool := decide (key ∈ keys m)

/-- `QMap::value( key )`, with the absent case made explicit. -/
def value [DecidableEq K] (m : QMap K V) (key : K) : Option V :=
  match m with
  | [] => none
  | (k, v) :: rest => if k = key then some v else value rest key

/-- `QMap::insert( key, value )`: the pair is placed at its position in key
order; the value of a key already present is replaced. -/
def insert [QMapKey K] (key : K) (val : V) (m : QMap K V) : QMap K V :=
  match m with
  | [] => [(key, val)]
  | (k, v) :: rest =>
    if QMapKey.lt key k then (key, val) :: (k, v) :: rest
    else if QMapKey.lt k key then (k, v) :: insert key val rest
    else (key, val) :: rest

end QMap

/-! ## `sourcelist.h` -/

/-- The signals of `SourceList` (`sourcelist.h`, lines 57-64). -/
inductive Notification where
  | ready
  | sourceAdded (source : Source)
  | sourceRemoved (source : Source)
  | sourceLatchedOn (origin target : Source)
  | sourceLatchedOff (origin target : Source)
deriving DecidableEq

/-- The data members of `SourceList` (`sourcelist.h`, lines 76-82), and the
latch relation of the data model as a list of edges `(origin, target)`. The mutex and
the dummy source play no part in the properties below. -/
structure SourceList where
  m_sources : QMap String Source
  m_sources_id2name : QMap Int String
  m_isReady : Bool
  latches : List (Source × Source)
deriving DecidableEq

namespace SourceList

/-- The registry as constructed: no Source, no latch edge, not ready. -/
def empty : SourceList :=
  { m_sources := [], m_sources_id2name := [], m_isReady := false, latches := [] }

/-- Modelled from the spec: `SourceList::count()`, whose body is in
`sourcelist.cpp`, absent; the number of registered Sources at the time of the
call. -/
def count (r : SourceList) : Nat := QMap.size r.m_sources

/-- Modelled from the spec: `SourceList::add( source )`, whose body is in
`sourcelist.cpp`, absent; registers a new Source under its username and its
id, and ignores a Source whose username is already used. -/
def add (r : SourceList) (source : Source) : SourceList × List Notification :=
  if QMap.contains r.m_sources source.username then (r, [])
  else
    ({ r with
        m_sources := QMap.insert source.username source r.m_sources
        m_sources_id2name := QMap.insert source.id source.username r.m_sources_id2name },
     [Notification.sourceAdded source])

/-- Modelled from the spec: the Source that `get( username, friendlyName )`
creates when the username is unknown. The constructor of `Source` is absent;
the id a new Source receives is the parameter `newId`. -/
def create (newId : String → Int) (username friendlyName : String) : Source :=
  { id := newId username
    username := username
    friendlyName := friendlyName
    online := false
    isLocal := false
    isWeb := false
    collection := { tracks := [] }
    currentTrack := none }

/-- Modelled from the spec: `SourceList::get( username, friendlyName )`, whose
body is in `sourcelist.cpp`, absent; returns the existing Source for that
username, or creates and registers one using the provided friendly name. -/
def get (newId : String → Int) (r : SourceList) (username friendlyName : String) :
    Source × SourceList × List Notification :=
  match QMap.value r.m_sources username with
  | some s => (s, r, [])
  | none =>
    let s := create newId username friendlyName
    (s, add r s)

/-- Modelled from the spec: `SourceList::get( id )`, whose body is in
`sourcelist.cpp`, absent; the Source for an id, or none if unknown. -/
def getById (r : SourceList) (id : Int) : Option Source :=
  (QMap.value r.m_sources_id2name id).bind (QMap.value r.m_sources)

/-- Modelled from the spec: whether a Source counts as online; the local
Source always does. -/
def isOnline (s : Source) : Bool := s.online || s.isLocal

/-- Modelled from the spec: `SourceList::sources( onlyOnline )`, whose body is
in `sourcelist.cpp`, absent; a snapshot of all Sources, optionally filtered to
the online ones. -/
def sources (r : SourceList) (onlyOnline : Bool) : List Source :=
  (QMap.values r.m_sources).filter (fun s => !onlyOnline || isOnline s)

/-- Modelled from the spec: whether `removeAllRemote()` removes a Source:
one that is neither local nor web. -/
def isRemote (s : Source) : Bool := !s.isLocal && !s.isWeb

/-- Modelled from the spec: `SourceList::removeAllRemote()`, whose body is in
`sourcelist.cpp`, absent; removes every non-local, non-web Source and emits a
removal notification per Source removed. -/
def removeAllRemote (r : SourceList) : SourceList × List Notification :=
  ({ r with
      m_sources := r.m_sources.filter (fun e => !isRemote e.2)
      m_sources_id2name :=
        r.m_sources_id2name.filter
          (fun e => decide (e.2 ∈ QMap.keys (r.m_sources.filter (fun e => !isRemote e.2)))) },
   ((QMap.values r.m_sources).filter isRemote).map Notification.sourceRemoved)

/-- Modelled from the spec: `latchOn( from, to )`, of which the header has
only the slot and signal declarations; sets the outgoing latch edge of `from`,
replacing any prior edge, whose latched-off notification fires before the new
latched-on one. -/
def latchOn (r : SourceList) (origin target : Source) : SourceList × List Notification :=
  ({ r with
      latches := r.latches.filter (fun e => e.1.username ≠ origin.username) ++ [(origin, target)] },
   (r.latches.filter (fun e => e.1.username = origin.username)).map
      (fun e => Notification.sourceLatchedOff e.1 e.2)
    ++ [Notification.sourceLatchedOn origin target])

/-- Modelled from the spec: `latchOff( from )`, of which the header has only
the slot and signal declarations; clears the outgoing latch edge of `from`. -/
def latchOff (r : SourceList) (origin : Source) : SourceList × List Notification :=
  ({ r with latches := r.latches.filter (fun e => e.1.username ≠ origin.username) },
   (r.latches.filter (fun e => e.1.username = origin.username)).map
      (fun e => Notification.sourceLatchedOff e.1 e.2))

/-- The number of latch edges that leave a Source. -/
def outDegree (r : SourceList) (a : Source) : Nat :=
  (r.latches.filter (fun e => e.1.username = a.username)).length

end SourceList

/-- A registration call on the registry. -/
inductive RegistryOp where
  | add (source : Source)
  | get (username friendlyName : String)
deriving DecidableEq

/-- The username a registration call is about. -/
def RegistryOp.username : RegistryOp → String
  | RegistryOp.add s => s.username
  | RegistryOp.get u _ => u

/-- The Source a registration call registers when the username is new. -/
def RegistryOp.source (newId : String → Int) : RegistryOp → Source
  | RegistryOp.add s => s
  | RegistryOp.get u f => SourceList.create newId u f

/-- The registry after one registration call. -/
def SourceList.step (newId : String → Int) (r : SourceList) : RegistryOp → SourceList
  | RegistryOp.add s => (SourceList.add r s).1
  | RegistryOp.get u f => (SourceList.get newId r u f).2.1

/-- The registry after a sequence of registration calls. -/
def SourceList.run (newId : String → Int) (r : SourceList) (ops : List RegistryOp) : SourceList :=
  ops.foldl (SourceList.step newId) r

/-- A latch call on the registry. -/
inductive LatchOp where
  | latchOn (origin target : Source)
  | latchOff (origin : Source)
deriving DecidableEq

/-- The registry after one latch call. -/
def SourceList.latchStep (r : SourceList) : LatchOp → SourceList
  | LatchOp.latchOn a b => (SourceList.latchOn r a b).1
  | LatchOp.latchOff a => (SourceList.latchOff r a).1

/-- The registry after a sequence of latch calls. -/
def SourceList.latchRun (r : SourceList) (ops : List LatchOp) : SourceList :=
  ops.foldl SourceList.latchStep r

/-! ## Ranking of Results -/

/-- Modelled from the spec: the ranking for consumption, whose code is in the
pipeline, absent. `outranks a b` holds when `a` has the lower backend-priority
ordinal, or the same ordinal and the higher score. -/
def outranks (a b : Result) : Bool :=
  decide (a.priority < b.priority) || (decide (a.priority = b.priority) && decide (b.score < a.score))

/-- Modelled from the spec: the highest-ranked entry of a Result list given in
arrival order: an entry that no other entry outranks, the earliest arrival
among equals. -/
def topRanked : List Result → Option Result
  | [] => none
  | r :: rest =>
    match topRanked rest with
    | none => some r
    | some t => if outranks t r then some t else some r

/-- Modelled from the spec: the place of a Result among the Results that
arrived after it, once these are in ranked order: behind every entry that
outranks it and ahead of all others, so that the earlier arrival goes first
among equals. -/
def insertRanked (r : Result) : List Result → List Result
  | [] => [r]
  | x :: rest => if outranks x r then x :: insertRanked r rest else r :: x :: rest

/-- Modelled from the spec: `Query::results()`, declared in `query.h`, which is
not among the sources: the attached Results, given in arrival order, re-ranked
on read: lowest backend-priority ordinal first, then highest score, then
earliest arrival. -/
def rankedRead : List Result → List Result
  | [] => []
  | r :: rest => insertRanked r (rankedRead rest)

/-- Modelled from the spec: the Query as a consumer reads it when the Results
`arrived` are attached to it, in that order of arrival. -/
def Query.attach (q : Query) (arrived : List Result) : Query :=
  { q with results := rankedRead arrived }

/-! ## Scenario values -/

/-- The Result of the local backend in the ranking scenario: priority 0,
score 0.9. -/
def localResult : Result :=
  { backend := "local", priority := 0, score := 900, track := "Karma Police" }

/-- The Result of `peer1` in the ranking scenario: priority 1, score 1.0. -/
def peerResult : Result :=
  { backend := "peer1", priority := 1, score := 1000, track := "Karma Police" }

/-- The query of the ranking scenario with a given Result list. -/
def karmaPolice (results : List Result) : Query :=
  { id := 1, artist := "Radiohead", track := "Karma Police", results := results }

/-- A remote Source with a given current track. -/
def bobPlaying (track : Option Query) : Source :=
  { id := 2, username := "bob", friendlyName := "Bob", online := true, isLocal := false,
    isWeb := false, collection := { tracks := [karmaPolice []] }, currentTrack := track }

/-- The local Source of the registry scenario. -/
def alice : Source :=
  { id := 1, username := "alice", friendlyName := "Alice", online := false, isLocal := true,
    isWeb := false, collection := { tracks := [] }, currentTrack := none }

/-- The online remote Source of the registry scenario. -/
def bob : Source := bobPlaying none

/-- The offline remote Source of the registry scenario. -/
def carol : Source :=
  { id := 3, username := "carol", friendlyName := "Carol", online := false, isLocal := false,
    isWeb := false, collection := { tracks := [] }, currentTrack := none }

/-- The registry of the scenario: local alice, online bob, offline carol. -/
def scenarioRegistry : SourceList :=
  SourceList.run (fun _ => 0) SourceList.empty
    [RegistryOp.add alice, RegistryOp.add bob, RegistryOp.add carol]

/-! ## Invariants of the registry maps -/

/-- The username-keyed map after the Sources `seen` were offered to `add`: one
entry per username, the usernames are those of `seen`, and each entry is a
Source of `seen` held under its own username. -/
def SourceList.Registered (r : SourceList) (seen : List Source) : Prop :=
  (QMap.keys r.m_sources).Nodup
    ∧ (∀ n, n ∈ QMap.keys r.m_sources ↔ n ∈ seen.map Source.username)
    ∧ (∀ n s, (n, s) ∈ r.m_sources → s.username = n ∧ s ∈ seen)

/-- The id-to-username map pairs off with the username-keyed map: one entry
per id, as many entries as Sources, and an id maps to a username exactly when
the Source held under that username has that id. -/
def SourceList.IdsMatch (r : SourceList) : Prop :=
  (QMap.keys r.m_sources_id2name).Nodup
    ∧ QMap.size r.m_sources_id2name = QMap.size r.m_sources
    ∧ ∀ i n, (i, n) ∈ r.m_sources_id2name ↔ ∃ s, (n, s) ∈ r.m_sources ∧ s.id = i

/-- A sequence of registration calls with a repeated username. -/
def sampleOps : List RegistryOp :=
  [RegistryOp.add alice, RegistryOp.add bob, RegistryOp.get "bob" "Bobby",
   RegistryOp.get "dave" "Dave", RegistryOp.add carol]

/-- An id assignment for the Sources that `get` creates. -/
def sampleNewId : String → Int := fun username => 10 + username.length

/-! ## Resolution pipeline -/

/-- Modelled from the spec: a Resolver Backend as the pipeline registers it, the
pipeline code being absent: its name, its priority ordinal and whether it is a
low-latency backend, which a fast resolution keeps. -/
structure Backend where
  name : String
  priority : Nat
  lowLatency : Bool
deriving DecidableEq

/-- Modelled from the spec: the notifications of a Query: the incremental one
with the batch of new Results, and the terminal one. -/
inductive QueryNotification where
  | resultsAdded (batch : List Result)
  | resolvingFinished (hasResults : Bool)
deriving DecidableEq

/-- Modelled from the spec: what can happen to a submitted Query: a backend
delivers a batch of Results, a backend reports completion, the per-query
timeout elapses, the owner cancels the Query. -/
inductive PipelineEvent where
  | delivered (batch : List Result)
  | done (backend : String)
  | timeout
  | cancel
deriving DecidableEq

/-- Modelled from the spec: a submitted Query in the pipeline: the Query with
its Result list, the dispatched backends that have not reported completion,
and the finished and cancellation flags. -/
structure Resolution where
  query : Query
  pending : List String
  finished : Bool
  cancelled : Bool
deriving DecidableEq

namespace Pipeline

/-- Modelled from the spec: the Results of a delivered batch that are appended
to the attached ones; a Result whose fingerprint is already attached, or was
appended earlier from the same batch, is dropped. The fingerprint is the
parameter `fingerprint`. -/
def accept (fingerprint : Result → String) (attached : List Result) :
    List Result → List Result
  | [] => []
  | r :: rest =>
    if fingerprint r ∈ attached.map fingerprint then accept fingerprint attached rest
    else r :: accept fingerprint (attached ++ [r]) rest

/-- Modelled from the spec: the Query is marked finished and the terminal
notification fires; `hasResults` tells whether the Result list is non-empty
at that moment. -/
def finish (s : Resolution) : Resolution × List QueryNotification :=
  ({ s with finished := true },
   [QueryNotification.resolvingFinished (!s.query.results.isEmpty)])

/-- Modelled from the spec: the backends that take part: the low-latency ones
if `fast`, otherwise all registered ones. -/
def selectBackends (backends : List Backend) (fast : Bool) : List Backend :=
  if fast then backends.filter (fun b => b.lowLatency) else backends

/-- Modelled from the spec: `Pipeline::resolve( query, fast )`, whose code is
absent: the Query is dispatched to every selected backend; it is finished at
once when there is none to wait for. -/
def resolve (backends : List Backend) (q : Query) (fast : Bool) :
    Resolution × List QueryNotification :=
  if (selectBackends backends fast).isEmpty then
    finish { query := q, pending := [], finished := false, cancelled := false }
  else
    ({ query := q
       pending := (selectBackends backends fast).map (fun b => b.name)
       finished := false
       cancelled := false }, [])

/-- Modelled from the spec: the effect of one event on a submitted Query.
A cancelled or finished Query is not touched by a delivery, a completion
report or the timeout, and nothing is notified. On a live Query a delivery
appends the accepted Results and notifies them as one batch; the completion
report of the last pending backend, or the timeout, finishes the Query. -/
def step (fingerprint : Result → String) (s : Resolution) :
    PipelineEvent → Resolution × List QueryNotification
  | PipelineEvent.cancel => ({ s with cancelled := true }, [])
  | PipelineEvent.delivered batch =>
    if s.cancelled || s.finished then (s, [])
    else
      match accept fingerprint s.query.results batch with
      | [] => (s, [])
      | r :: rest =>
        ({ s with query := { s.query with results := s.query.results ++ r :: rest } },
         [QueryNotification.resultsAdded (r :: rest)])
  | PipelineEvent.done backend =>
    if s.cancelled || s.finished then (s, [])
    else if (s.pending.filter (fun b => b ≠ backend)).isEmpty then
      finish { s with pending := [] }
    else ({ s with pending := s.pending.filter (fun b => b ≠ backend) }, [])
  | PipelineEvent.timeout =>
    if s.cancelled || s.finished then (s, []) else finish s

/-- The state and the notifications so far, after one more event. -/
def advance (fingerprint : Result → String) (p : Resolution × List QueryNotification)
    (e : PipelineEvent) : Resolution × List QueryNotification :=
  ((step fingerprint p.1 e).1, p.2 ++ (step fingerprint p.1 e).2)

/-- The state of a Query and all its notifications, in order, after it was
submitted and a sequence of events took place. -/
def run (fingerprint : Result → String) (backends : List Backend) (q : Query) (fast : Bool)
    (events : List PipelineEvent) : Resolution × List QueryNotification :=
  events.foldl (advance fingerprint) (resolve backends q fast)

/-- The flags of the terminal notifications among a list of notifications. -/
def terminals : List QueryNotification → List Bool
  | [] => []
  | QueryNotification.resolvingFinished b :: rest => b :: terminals rest
  | QueryNotification.resultsAdded _ :: rest => terminals rest

/-- The batches of the incremental notifications among a list of
notifications. -/
def batches : List QueryNotification → List (List Result)
  | [] => []
  | QueryNotification.resultsAdded b :: rest => b :: batches rest
  | QueryNotification.resolvingFinished _ :: rest => batches rest

end Pipeline

/-- A Result with a given fingerprint from a given backend, for the
deduplication scenario; its track text serves as fingerprint. -/
def resultWith (backend fingerprint : String) (priority : Nat) : Result :=
  { backend := backend, priority := priority, score := 1000, track := fingerprint }

/-- The two backends of the ranking and deduplication scenarios. -/
def scenarioBackends : List Backend :=
  [{ name := "local", priority := 0, lowLatency := true },
   { name := "peer1", priority := 1, lowLatency := false }]

/-- The deliveries of the deduplication scenario: fingerprints f1, f1, f2 from
two backends. -/
def scenarioDeliveries : List PipelineEvent :=
  [PipelineEvent.delivered [resultWith "local" "f1" 0],
   PipelineEvent.delivered [resultWith "peer1" "f1" 1],
   PipelineEvent.delivered [resultWith "peer1" "f2" 1]]

/-! ## `utils/logger.cpp` -/

/-- The build: with `QT_NO_DEBUG` defined (release) or not (debug). -/
inductive Build where
  | release
  | debug
deriving DecidableEq

/-- The level macros `LOGEXTRA` and `LOGTHIRDPARTY` of `utils/logger.h`, which
is not among the sources: two constants of type `int`. -/
structure LogLevels where
  LOGEXTRA : Int
  LOGTHIRDPARTY : Int
deriving DecidableEq

/-- One line of the log file: the three pieces that `log` writes, the time of
day, the level between brackets and the message. -/
structure LogLine where
  time : String
  level : Nat
  msg : String
deriving DecidableEq

/-- The state that `log` works on: the static `s_threshold`, the lines written
to the stream `logfile` and the lines written to `cout`. -/
structure LoggerState where
  s_threshold : Int
  logfile : List LogLine
  cout : List String
deriving DecidableEq

/-- The kinds of Qt message (`QtMsgType`). -/
inductive QtMsgType where
  | QtDebugMsg
  | QtWarningMsg
  | QtCriticalMsg
  | QtFatalMsg
deriving DecidableEq

namespace Logger

/-- The conversion of an `int` to `unsigned int`, which C++ applies to the
`int` operand when it compares an `unsigned int` with it. -/
def toUnsigned (x : Int) : Nat := (x % 4294967296).toNat

/-- The cast `(int)` of an `unsigned int`: values from `2^31` on wrap to the
negative numbers. -/
def toInt (n : Nat) : Int :=
  if n % 4294967296 < 2147483648 then ((n % 4294967296 : Nat) : Int)
  else ((n % 4294967296 : Nat) : Int) - 4294967296

/-- `RELEASE_LEVEL_THRESHOLD` (line 36). -/
def RELEASE_LEVEL_THRESHOLD : Int := 0

/-- `DEBUG_LEVEL_THRESHOLD` (line 37). -/
def DEBUG_LEVEL_THRESHOLD (lv : LogLevels) : Int := lv.LOGEXTRA

/-- The threshold macro that the build selects in both `#ifdef QT_NO_DEBUG`
blocks of `log`. -/
def buildThreshold (build : Build) (lv : LogLevels) : Int :=
  match build with
  | Build.release => RELEASE_LEVEL_THRESHOLD
  | Build.debug => DEBUG_LEVEL_THRESHOLD lv

/-- Lines 49-59 of `log`: a negative `s_threshold` is set to `LOGTHIRDPARTY`
when the arguments of the application contain `--verbose`, and to the
threshold of the build otherwise. -/
def initThreshold (build : Build) (lv : LogLevels) (arguments : List String)
    (s_threshold : Int) : Int :=
  if s_threshold < 0 then
    if arguments.contains "--verbose" then lv.LOGTHIRDPARTY else buildThreshold build lv
  else s_threshold

/-- Lines 61-67 of `log`: `toDisk` is cleared when `debugLevel` exceeds the
threshold of the build, in an unsigned comparison. -/
def effectiveToDisk (build : Build) (lv : LogLevels) (debugLevel : Nat) (toDisk : Bool) : Bool :=
  if debugLevel % 4294967296 > toUnsigned (buildThreshold build lv) then false else toDisk

/-- The condition of line 69, under which the message goes to the log file. -/
def writesFile (build : Build) (lv : LogLevels) (s_threshold : Int) (debugLevel : Nat)
    (toDisk : Bool) : Bool :=
  effectiveToDisk build lv debugLevel toDisk || decide (toInt debugLevel ≤ s_threshold)

/-- The condition of line 75, under which the message goes to `cout`. -/
def writesCout (lv : LogLevels) (s_threshold : Int) (debugLevel : Nat) : Bool :=
  decide (debugLevel % 4294967296 ≤ toUnsigned lv.LOGEXTRA)
    || decide (toInt debugLevel ≤ s_threshold)

/-- `Logger::log( msg, debugLevel, toDisk )`, lines 46-80. `arguments` are the
arguments of the application and `now` is the time of day as text. -/
def log (build : Build) (lv : LogLevels) (arguments : List String) (now : String)
    (st : LoggerState) (msg : String) (debugLevel : Nat) (toDisk : Bool) : LoggerState :=
  { s_threshold := initThreshold build lv arguments st.s_threshold
    logfile :=
      if writesFile build lv (initThreshold build lv arguments st.s_threshold) debugLevel toDisk
      then st.logfile ++ [{ time := now, level := debugLevel % 4294967296, msg := msg }]
      else st.logfile
    cout :=
      if writesCout lv (initThreshold build lv arguments st.s_threshold) debugLevel
      then st.cout ++ [msg]
      else st.cout }

/-- `Logger::TomahawkLogHandler( type, msg )`, lines 83-107; `toDisk` has its
default value `true` in each call of `log`. -/
def TomahawkLogHandler (build : Build) (lv : LogLevels) (arguments : List String)
    (now : String) (st : LoggerState) (type : QtMsgType) (msg : String) : LoggerState :=
  match type with
  | QtMsgType.QtDebugMsg => log build lv arguments now st msg (toUnsigned lv.LOGTHIRDPARTY) true
  | QtMsgType.QtCriticalMsg => log build lv arguments now st msg 0 true
  | QtMsgType.QtWarningMsg => log build lv arguments now st msg 0 true
  | QtMsgType.QtFatalMsg => log build lv arguments now st msg 0 true

/-- `QByteArray::right( len )`: the last `len` bytes, or the whole array when
it has no more than `len` bytes. -/
def right (bytes : List UInt8) (len : Int) : List UInt8 :=
  if len ≥ bytes.length then bytes else bytes.drop (bytes.length - len.toNat)

end Logger

/-- Levels with `LOGEXTRA` below `LOGTHIRDPARTY`, for the examples. -/
def sampleLevels : LogLevels := { LOGEXTRA := 5, LOGTHIRDPARTY := 9 }

/-- The logger before the first call of `log`: `s_threshold` is `-1`. -/
def freshLogger : LoggerState := { s_threshold := -1, logfile := [], cout := [] }

open SourcePlaylistInterface

theorem nextItem_some (c : SourcePlaylistInterface) (q : Query)
    (h : c.m_source.currentTrack = some q) :
    ∃ o, nextItem c = Except.ok o ∧ o.value = q.results.head? ∧ o.self = c := by
  simp only [nextItem, h]
  split
  · next hq => exact ⟨_, rfl, by simp [hq], rfl⟩
  · next r rest hq => exact ⟨_, rfl, by simp [hq], rfl⟩

theorem siblingItem_some (c : SourcePlaylistInterface) (itemsAway : Int) (q : Query)
    (h : c.m_source.currentTrack = some q) :
    ∃ o, siblingItem c itemsAway = Except.ok o ∧ o.value = q.results.head? ∧ o.self = c := by
  simp only [siblingItem, h]
  split
  · next hq => exact ⟨_, rfl, by simp [hq], rfl⟩
  · next r rest hq => exact ⟨_, rfl, by simp [hq], rfl⟩

theorem topRanked_of_ranked (l : List Result)
    (h : l.Pairwise (fun a b => outranks b a = false)) : topRanked l = l.head? := by
  induction l with
  | nil => rfl
  | cons r rest ih =>
    rw [List.pairwise_cons] at h
    have ht := ih h.2
    cases rest with
    | nil => rfl
    | cons t rest2 =>
      simp only [List.head?_cons] at ht
      simp only [topRanked, List.head?_cons] at ht ⊢
      rw [ht]
      simp [h.1 t (List.mem_cons_self _ _)]

/-- C1: when the current track of the Source is present, `nextItem()` returns,
its value is the null Result exactly when the Result list of the current track
is empty and is otherwise the first element of that list, and the cursor, with
its Source, current track and Result list, is the same after the call. -/
theorem nextItem_snapshot (c : SourcePlaylistInterface) (q : Query)
    (h : c.m_source.currentTrack = some q) :
    ∃ o, nextItem c = Except.ok o
      ∧ (o.value = none ↔ q.results = [])
      ∧ o.value = q.results.head?
      ∧ o.self = c
      ∧ o.self.m_source.currentTrack = some q := by
  obtain ⟨o, ho, hv, hs⟩ := nextItem_some c q h
  refine ⟨o, ho, ?_, hv, hs, ?_⟩
  · rw [hv]
    cases q.results <;> simp
  · rw [hs]; exact h

/-- C1 at a cursor over bob playing a track with two Results. -/
theorem nextItem_snapshot_witness :
    (({ m_source := bobPlaying (some (karmaPolice [peerResult, localResult])) } :
        SourcePlaylistInterface).m_source.currentTrack
      = some (karmaPolice [peerResult, localResult]))
    ∧ ∃ o, nextItem { m_source := bobPlaying (some (karmaPolice [peerResult, localResult])) }
          = Except.ok o
      ∧ (o.value = none ↔ (karmaPolice [peerResult, localResult]).results = [])
      ∧ o.value = (karmaPolice [peerResult, localResult]).results.head?
      ∧ o.self = { m_source := bobPlaying (some (karmaPolice [peerResult, localResult])) }
      ∧ o.self.m_source.currentTrack = some (karmaPolice [peerResult, localResult]) :=
  ⟨rfl, nextItem_snapshot _ _ rfl⟩

/-- C2: in every cursor state and for every integer offset, `siblingItem` has
the outcome of `nextItem` in that state: it returns the same Result, or faults
with the same fault, and leaves the cursor as `nextItem` leaves it. -/
theorem siblingItem_eq_nextItem (c : SourcePlaylistInterface) (itemsAway : Int) :
    Except.map Outcome.value (siblingItem c itemsAway) = Except.map Outcome.value (nextItem c)
      ∧ returned (siblingItem c itemsAway) = returned (nextItem c)
      ∧ receiverAfter (siblingItem c itemsAway) = receiverAfter (nextItem c) := by
  unfold siblingItem nextItem
  split
  · exact ⟨rfl, rfl, rfl⟩
  · split <;> exact ⟨rfl, rfl, rfl⟩

/-- C3 (as stated, it fails): for the scenario query on a cursor over bob, the
playback-start handler makes no call `resolve( q, false )`; the call it makes
is `resolve( q, true )`. -/
theorem onSourcePlaybackStarted_not_full_fanout :
    Effect.resolve (karmaPolice []) false
        ∉ (onSourcePlaybackStarted { m_source := bob } (karmaPolice [])).effects
      ∧ Effect.resolve (karmaPolice []) true
        ∈ (onSourcePlaybackStarted { m_source := bob } (karmaPolice [])).effects := by
  simp [onSourcePlaybackStarted]

/-- C3 (amended): when playback starts with query `q`, the cursor submits `q`
to the pipeline with the second argument of `resolve` set to `true`, for every
`q`; it makes no other pipeline call. -/
theorem onSourcePlaybackStarted_resolves_with_true (c : SourcePlaylistInterface) (q : Query) :
    Effect.resolve q true ∈ (onSourcePlaybackStarted c q).effects
      ∧ ∀ (p : Query) (fast : Bool),
          Effect.resolve p fast ∈ (onSourcePlaybackStarted c q).effects → p = q ∧ fast = true := by
  simp [onSourcePlaybackStarted]

/-- C3 (amended) at the scenario query on a cursor over bob. -/
theorem onSourcePlaybackStarted_resolves_with_true_witness :
    Effect.resolve (karmaPolice []) true
        ∈ (onSourcePlaybackStarted { m_source := bob } (karmaPolice [])).effects
      ∧ (karmaPolice [] = karmaPolice [] ∧ true = true) :=
  ⟨(onSourcePlaybackStarted_resolves_with_true { m_source := bob } (karmaPolice [])).1,
    (onSourcePlaybackStarted_resolves_with_true { m_source := bob } (karmaPolice [])).2
      (karmaPolice []) true (by simp [onSourcePlaybackStarted])⟩

theorem outranks_iff (a b : Result) :
    outranks a b = true
      ↔ a.priority < b.priority ∨ (a.priority = b.priority ∧ b.score < a.score) := by
  simp [outranks]

theorem outranks_false_iff (a b : Result) :
    outranks a b = false
      ↔ b.priority < a.priority ∨ (b.priority = a.priority ∧ a.score ≤ b.score) := by
  rw [← Bool.not_eq_true, outranks_iff]
  omega

theorem topRanked_eq_none (l : List Result) (h : topRanked l = none) : l = [] := by
  cases l with
  | nil => rfl
  | cons r rest =>
    simp only [topRanked] at h
    split at h
    · exact absurd h (by simp)
    · split at h <;> exact absurd h (by simp)

theorem head_rankedRead (l : List Result) : (rankedRead l).head? = topRanked l := by
  induction l with
  | nil => rfl
  | cons r rest ih =>
    simp only [rankedRead, topRanked, ← ih]
    cases rankedRead rest with
    | nil => rfl
    | cons t ts =>
      simp only [insertRanked, List.head?_cons]
      split <;> rfl

/-- The highest-ranked entry splits the arrivals: it outranks every entry that
arrived before it, and no entry that arrived after it outranks it. -/
theorem topRanked_split (l : List Result) (r : Result) (h : topRanked l = some r) :
    ∃ before after, l = before ++ r :: after
      ∧ (∀ x ∈ before, outranks r x = true)
      ∧ (∀ x ∈ after, outranks x r = false) := by
  induction l generalizing r with
  | nil => exact absurd h (by simp [topRanked])
  | cons a rest ih =>
    simp only [topRanked] at h
    cases ht : topRanked rest with
    | none =>
      rw [ht] at h
      have hr : a = r := by simpa using h
      have hrest := topRanked_eq_none rest ht
      subst hr
      subst hrest
      exact ⟨[], [], rfl, by simp, by simp⟩
    | some t =>
      rw [ht] at h
      obtain ⟨b, c, hsplit, hb, hc⟩ := ih t ht
      by_cases hta : outranks t a = true
      · have hr : t = r := by simpa [hta] using h
        subst hr
        refine ⟨a :: b, c, by rw [hsplit]; rfl, ?_, hc⟩
        intro x hx
        rcases List.mem_cons.1 hx with hx | hx
        · rw [hx]; exact hta
        · exact hb x hx
      · have hta2 : outranks t a = false := by simpa using hta
        have hr : a = r := by simpa [hta2] using h
        subst hr
        refine ⟨[], rest, rfl, by simp, ?_⟩
        intro x hx
        rw [hsplit] at hx
        rw [outranks_false_iff] at hta2 ⊢
        rcases List.mem_append.1 hx with hx | hx
        · have h1 := (outranks_iff t x).1 (hb x hx)
          omega
        · rcases List.mem_cons.1 hx with hx | hx
          · rw [hx]; exact hta2
          · have h1 := (outranks_false_iff x t).1 (hc x hx)
            omega

theorem insertRanked_perm (r : Result) (l : List Result) :
    (insertRanked r l).Perm (r :: l) := by
  induction l with
  | nil => exact List.Perm.refl _
  | cons x rest ih =>
    simp only [insertRanked]
    split
    · exact (ih.cons x).trans (List.Perm.swap _ _ _)
    · exact List.Perm.refl _

theorem rankedRead_perm (l : List Result) : (rankedRead l).Perm l := by
  induction l with
  | nil => exact List.Perm.refl _
  | cons r rest ih => exact (insertRanked_perm r _).trans (ih.cons r)

theorem insertRanked_ranked (r : Result) (l : List Result)
    (h : l.Pairwise (fun a b => outranks b a = false)) :
    (insertRanked r l).Pairwise (fun a b => outranks b a = false) := by
  induction l with
  | nil => simp [insertRanked]
  | cons x rest ih =>
    rw [List.pairwise_cons] at h
    simp only [insertRanked]
    by_cases hx : outranks x r = true
    · simp only [hx, if_true]
      rw [List.pairwise_cons]
      refine ⟨?_, ih h.2⟩
      intro y hy
      rcases List.mem_cons.1 ((insertRanked_perm r rest).mem_iff.1 hy) with hy | hy
      · rw [hy, outranks_false_iff]
        have := (outranks_iff x r).1 hx
        omega
      · exact h.1 y hy
    · have hx2 : outranks x r = false := by simpa using hx
      simp only [hx2, Bool.false_eq_true, if_false]
      rw [List.pairwise_cons, List.pairwise_cons]
      refine ⟨?_, h.1, h.2⟩
      intro y hy
      rcases List.mem_cons.1 hy with hy | hy
      · rw [hy]; exact hx2
      · have h1 := (outranks_false_iff y x).1 (h.1 y hy)
        rw [outranks_false_iff] at hx2 ⊢
        omega

theorem rankedRead_ranked (l : List Result) :
    (rankedRead l).Pairwise (fun a b => outranks b a = false) := by
  induction l with
  | nil => exact List.Pairwise.nil
  | cons r rest ih => exact insertRanked_ranked r _ ih

/-- C4: for every non-empty list of Results attached to the current track, in
whatever order they arrived, `nextItem()` and `siblingItem` return the
highest-ranked one: an entry with the lowest backend-priority ordinal, among
these the highest score, among these the earliest arrival. The list that the
cursor reads is the attached list in ranked order. With the Result of local
(priority 0, score 0.9) and the Result of peer1 (priority 1, score 1.0)
attached in either order of arrival, the local Result is returned. -/
theorem nextItem_returns_top_ranked (source : Source) (q : Query) (arrived : List Result)
    (hne : arrived ≠ []) :
    (∃ r before after,
        arrived = before ++ r :: after
          ∧ (∀ x ∈ before,
              r.priority < x.priority ∨ (r.priority = x.priority ∧ x.score < r.score))
          ∧ (∀ x ∈ after,
              r.priority < x.priority ∨ (r.priority = x.priority ∧ x.score ≤ r.score))
          ∧ returned
              (nextItem { m_source := { source with currentTrack := some (q.attach arrived) } })
            = some (some r)
          ∧ ∀ itemsAway : Int,
              returned
                (siblingItem
                  { m_source := { source with currentTrack := some (q.attach arrived) } }
                  itemsAway)
              = some (some r))
      ∧ (q.attach arrived).results.Perm arrived
      ∧ (q.attach arrived).results.Pairwise (fun a b => outranks b a = false)
      ∧ returned
          (nextItem
            { m_source := bobPlaying (some ((karmaPolice []).attach [localResult, peerResult])) })
        = some (some localResult)
      ∧ returned
          (nextItem
            { m_source := bobPlaying (some ((karmaPolice []).attach [peerResult, localResult])) })
        = some (some localResult) := by
  refine ⟨?_, rankedRead_perm arrived, rankedRead_ranked arrived, by decide, by decide⟩
  cases htop : topRanked arrived with
  | none => exact absurd (topRanked_eq_none arrived htop) hne
  | some r =>
    obtain ⟨before, after, hsplit, hb, ha⟩ := topRanked_split arrived r htop
    have hhead : (q.attach arrived).results.head? = some r := by
      simp only [Query.attach]
      rw [head_rankedRead, htop]
    refine ⟨r, before, after, hsplit, fun x hx => (outranks_iff r x).1 (hb x hx),
      fun x hx => (outranks_false_iff x r).1 (ha x hx), ?_, ?_⟩
    · obtain ⟨o, ho, hv, _⟩ :=
        nextItem_some { m_source := { source with currentTrack := some (q.attach arrived) } }
          (q.attach arrived) rfl
      simp [ho, returned, hv, hhead]
    · intro k
      obtain ⟨o, ho, hv, _⟩ :=
        siblingItem_some { m_source := { source with currentTrack := some (q.attach arrived) } }
          k (q.attach arrived) rfl
      simp [ho, returned, hv, hhead]

/-- C4 at the two Results of the scenario, the one of peer1 arriving first. -/
theorem nextItem_returns_top_ranked_witness :
    [peerResult, localResult] ≠ []
      ∧ ∃ r before after,
        [peerResult, localResult] = before ++ r :: after
          ∧ (∀ x ∈ before,
              r.priority < x.priority ∨ (r.priority = x.priority ∧ x.score < r.score))
          ∧ (∀ x ∈ after,
              r.priority < x.priority ∨ (r.priority = x.priority ∧ x.score ≤ r.score))
          ∧ returned
              (nextItem
                { m_source :=
                    { bob with
                      currentTrack :=
                        some ((karmaPolice []).attach [peerResult, localResult]) } })
            = some (some r)
          ∧ ∀ itemsAway : Int,
              returned
                (siblingItem
                  { m_source :=
                      { bob with
                        currentTrack :=
                          some ((karmaPolice []).attach [peerResult, localResult]) } }
                  itemsAway)
              = some (some r) :=
  ⟨by decide,
    (nextItem_returns_top_ranked bob (karmaPolice []) [peerResult, localResult]
      (by decide)).1⟩

/-- C5 (the code at the failing input): on a Source whose current track is
null, `nextItem()` and `siblingItem( offset )` do not return a null Result:
both dereference the null track and fault. -/
theorem nextItem_faults_without_track (s : Source) (itemsAway : Int) :
    nextItem { m_source := { s with currentTrack := none } }
        = Except.error Fault.nullDereference
      ∧ siblingItem { m_source := { s with currentTrack := none } } itemsAway
        = Except.error Fault.nullDereference
      ∧ returned (nextItem { m_source := bob }) = none
      ∧ returned (siblingItem { m_source := bob } itemsAway) = none :=
  ⟨rfl, rfl, rfl, rfl⟩

/-- C6: on every playback-start event of the Source carrying query `q`,
whatever the current track of the Source, the cursor connects its handlers to
the `resultsAdded` and the `resolvingFinished` signal of `q` and then submits
`q` to the pipeline: the effects of the event split around a single `resolve`
call on `q`, with both connections before it and no other submission. -/
theorem playbackStarted_subscribes_then_submits (source : Source) (track : Option Query)
    (q : Query) :
    ∃ (before after : List Effect) (fast : Bool),
      deliverPlaybackStarted (connections (SourcePlaylistInterface.new source).effects)
          { m_source := { source with currentTrack := track } } q
        = before ++ Effect.resolve q fast :: after
      ∧ Effect.connect (Sender.query q.id) Signal.resultsAdded Slot.resolveResultsAdded ∈ before
      ∧ Effect.connect (Sender.query q.id) Signal.resolvingFinished Slot.resolvingFinished
          ∈ before
      ∧ submissions before = []
      ∧ submissions after = []
      ∧ submissions
          (deliverPlaybackStarted (connections (SourcePlaylistInterface.new source).effects)
            { m_source := { source with currentTrack := track } } q) = [q] := by
  refine ⟨[Effect.debug [funcInfoOnSourcePlaybackStarted],
      Effect.connect (Sender.query q.id) Signal.resultsAdded Slot.resolveResultsAdded,
      Effect.connect (Sender.query q.id) Signal.resolvingFinished Slot.resolvingFinished],
    [], true, ?_, ?_, ?_, ?_, ?_, ?_⟩ <;>
  simp [deliverPlaybackStarted, connections, SourcePlaylistInterface.new,
    onSourcePlaybackStarted, submissions]

/-- C7: `tracks()` returns the track sequence of the collection of the Source,
and the same sequence whatever the current track and its Results, also after
a playback start has submitted a query for resolution. -/
theorem tracks_independent_of_resolution (c : SourcePlaylistInterface) (track : Option Query)
    (q : Query) :
    (tracks c).value = c.m_source.collection.tracks
      ∧ (tracks { m_source := { c.m_source with currentTrack := track } }).value
          = (tracks c).value
      ∧ (tracks (onSourcePlaybackStarted c q).self).value = (tracks c).value
      ∧ (tracks c).self = c :=
  ⟨rfl, rfl, rfl, rfl⟩


/-! ## Properties of the source registry -/

namespace QMap

variable {K V : Type}

theorem insert_perm [QMapKey K] (key : K) (val : V) (m : QMap K V) (h : key ∉ keys m) :
    List.Perm (insert key val m) ((key, val) :: m) := by
  induction m with
  | nil => exact List.Perm.refl _
  | cons e rest ih =>
    obtain ⟨k, v⟩ := e
    have hk : key ≠ k := by
      intro hk
      apply h
      simp [keys, hk]
    have hr : key ∉ keys rest := by
      intro hr
      apply h
      simp only [keys, List.map_cons, List.mem_cons] at hr ⊢
      exact Or.inr hr
    by_cases h1 : QMapKey.lt key k = true
    · simp only [insert, h1, if_true]
      exact List.Perm.refl _
    · by_cases h2 : QMapKey.lt k key = true
      · simp only [insert, h1, h2, if_true, if_false]
        exact ((ih hr).cons (k, v)).trans (List.Perm.swap _ _ _)
      · exact absurd (QMapKey.eq_of_not_lt key k (by simpa using h1) (by simpa using h2)) hk

theorem value_eq_none [DecidableEq K] (m : QMap K V) (key : K) :
    value m key = none ↔ key ∉ keys m := by
  induction m with
  | nil => simp [value, keys]
  | cons e rest ih =>
    obtain ⟨k, v⟩ := e
    by_cases hk : k = key
    · simp [value, keys, hk]
    · simp only [value, hk, if_false, ih]
      simp only [keys, List.map_cons, List.mem_cons, not_or]
      constructor
      · intro h
        exact ⟨fun h2 => hk h2.symm, h⟩
      · intro h
        exact h.2

theorem mem_keys_iff (m : QMap K V) (key : K) : key ∈ keys m ↔ ∃ v, (key, v) ∈ m := by
  simp [keys]

end QMap

namespace SourceList

theorem source_username (newId : String → Int) (op : RegistryOp) :
    (op.source newId).username = op.username := by
  cases op <;> rfl

theorem add_of_mem (r : SourceList) (s : Source) (h : s.username ∈ QMap.keys r.m_sources) :
    add r s = (r, []) := by
  simp [add, QMap.contains, h]

theorem add_of_not_mem (r : SourceList) (s : Source) (h : s.username ∉ QMap.keys r.m_sources) :
    (add r s).1 =
      { r with
        m_sources := QMap.insert s.username s r.m_sources
        m_sources_id2name := QMap.insert s.id s.username r.m_sources_id2name } := by
  simp [add, QMap.contains, h]

theorem step_eq_add (newId : String → Int) (r : SourceList) (op : RegistryOp) :
    step newId r op = (add r (op.source newId)).1 := by
  cases op with
  | add s => rfl
  | get u f =>
    simp only [step, get, RegistryOp.source]
    cases hv : QMap.value r.m_sources u with
    | none => rfl
    | some s =>
      have hmem : u ∈ QMap.keys r.m_sources := by
        by_contra hn
        rw [(QMap.value_eq_none r.m_sources u).2 hn] at hv
        exact Option.noConfusion hv
      have hc : (create newId u f).username ∈ QMap.keys r.m_sources := hmem
      rw [add_of_mem r _ hc]

/-- The registry after offering a list of Sources to `add`, one after the
other. -/
theorem run_eq_foldl (newId : String → Int) (r : SourceList) (ops : List RegistryOp) :
    run newId r ops = (ops.map (RegistryOp.source newId)).foldl (fun r s => (add r s).1) r := by
  induction ops generalizing r with
  | nil => rfl
  | cons op rest ih =>
    simp only [run, List.foldl_cons, List.map_cons] at ih ⊢
    rw [step_eq_add]
    exact ih _


theorem registered_empty : Registered empty [] := by
  simp [Registered, empty, QMap.keys]

theorem idsMatch_empty : IdsMatch empty := by
  simp [IdsMatch, empty, QMap.keys, QMap.size]

theorem add_registered (r : SourceList) (seen : List Source) (s : Source)
    (h : Registered r seen) : Registered (add r s).1 (seen ++ [s]) := by
  obtain ⟨hnd, hkeys, hent⟩ := h
  by_cases hm : s.username ∈ QMap.keys r.m_sources
  · rw [add_of_mem r s hm]
    refine ⟨hnd, ?_, ?_⟩
    · intro n
      simp only [List.map_append, List.map_cons, List.map_nil, List.mem_append,
        List.mem_singleton]
      constructor
      · intro hn
        exact Or.inl ((hkeys n).1 hn)
      · rintro (hn | hn)
        · exact (hkeys n).2 hn
        · rw [hn]; exact hm
    · intro n t ht
      exact ⟨(hent n t ht).1, List.mem_append_left _ (hent n t ht).2⟩
  · rw [add_of_not_mem r s hm]
    have hp := QMap.insert_perm s.username s r.m_sources hm
    have hpk : List.Perm (QMap.keys (QMap.insert s.username s r.m_sources))
        (s.username :: QMap.keys r.m_sources) := hp.map Prod.fst
    refine ⟨?_, ?_, ?_⟩
    · exact hpk.nodup_iff.2 (List.nodup_cons.2 ⟨hm, hnd⟩)
    · intro n
      simp only [List.map_append, List.map_cons, List.map_nil, List.mem_append,
        List.mem_singleton]
      rw [hpk.mem_iff, List.mem_cons, hkeys n]
      exact or_comm
    · intro n t ht
      have ht2 : (n, t) ∈ (s.username, s) :: r.m_sources := hp.mem_iff.1 ht
      rw [List.mem_cons] at ht2
      rcases ht2 with heq | hin
      · have h1 : n = s.username := congrArg Prod.fst heq
        have h2 : t = s := congrArg Prod.snd heq
        subst h2
        exact ⟨h1.symm, List.mem_append_right _ (List.mem_singleton.2 rfl)⟩
      · exact ⟨(hent n t hin).1, List.mem_append_left _ (hent n t hin).2⟩

theorem add_idsMatch (r : SourceList) (seen : List Source) (s : Source)
    (h : Registered r seen) (hi : IdsMatch r)
    (hid : ∀ t ∈ seen, t.id = s.id → t.username = s.username) : IdsMatch (add r s).1 := by
  obtain ⟨_, _, hent⟩ := h
  obtain ⟨hnd, hsize, hiff⟩ := hi
  by_cases hm : s.username ∈ QMap.keys r.m_sources
  · rw [add_of_mem r s hm]
    exact ⟨hnd, hsize, hiff⟩
  · rw [add_of_not_mem r s hm]
    have hfresh : s.id ∉ QMap.keys r.m_sources_id2name := by
      intro hin
      obtain ⟨n, hn⟩ := (QMap.mem_keys_iff _ _).1 hin
      obtain ⟨t, ht, htid⟩ := (hiff s.id n).1 hn
      have hu := hid t (hent n t ht).2 htid
      apply hm
      rw [← hu, (hent n t ht).1]
      exact (QMap.mem_keys_iff _ _).2 ⟨t, ht⟩
    have hp := QMap.insert_perm s.username s r.m_sources hm
    have hq := QMap.insert_perm s.id s.username r.m_sources_id2name hfresh
    have hqk : List.Perm (QMap.keys (QMap.insert s.id s.username r.m_sources_id2name))
        (s.id :: QMap.keys r.m_sources_id2name) := hq.map Prod.fst
    refine ⟨?_, ?_, ?_⟩
    · exact hqk.nodup_iff.2 (List.nodup_cons.2 ⟨hfresh, hnd⟩)
    · simp only [QMap.size] at hsize ⊢
      rw [hq.length_eq, hp.length_eq, List.length_cons, List.length_cons, hsize]
    · intro i n
      simp only []
      rw [hq.mem_iff, List.mem_cons, hiff i n]
      constructor
      · rintro (heq | ⟨t, ht, hti⟩)
        · have h1 : i = s.id := congrArg Prod.fst heq
          have h2 : n = s.username := congrArg Prod.snd heq
          refine ⟨s, hp.mem_iff.2 ?_, h1.symm⟩
          rw [h2]
          exact List.mem_cons_self _ _
        · exact ⟨t, hp.mem_iff.2 (List.mem_cons_of_mem _ ht), hti⟩
      · rintro ⟨t, ht, hti⟩
        have ht2 : (n, t) ∈ (s.username, s) :: r.m_sources := hp.mem_iff.1 ht
        rw [List.mem_cons] at ht2
        rcases ht2 with heq | hin
        · have h1 : n = s.username := congrArg Prod.fst heq
          have h2 : t = s := congrArg Prod.snd heq
          left
          rw [h1, ← hti, h2]
        · exact Or.inr ⟨t, hin, hti⟩

theorem foldl_registered (sources : List Source) (r : SourceList) (seen : List Source)
    (h : Registered r seen) :
    Registered (sources.foldl (fun r s => (add r s).1) r) (seen ++ sources) := by
  induction sources generalizing r seen with
  | nil => simpa using h
  | cons s rest ih =>
    have h2 := ih (add r s).1 (seen ++ [s]) (add_registered r seen s h)
    simpa [List.append_assoc] using h2

theorem foldl_idsMatch (sources : List Source) (r : SourceList) (seen : List Source)
    (h : Registered r seen) (hi : IdsMatch r)
    (hid : ∀ a ∈ seen ++ sources, ∀ b ∈ seen ++ sources, a.id = b.id → a.username = b.username) :
    IdsMatch (sources.foldl (fun r s => (add r s).1) r) := by
  induction sources generalizing r seen with
  | nil => exact hi
  | cons s rest ih =>
    have hs : s ∈ seen ++ s :: rest := List.mem_append_right _ (List.mem_cons_self _ _)
    have h1 := add_registered r seen s h
    have h2 := add_idsMatch r seen s h hi
      (fun t ht => hid t (List.mem_append_left _ ht) s hs)
    refine ih (add r s).1 (seen ++ [s]) h1 h2 ?_
    simpa [List.append_assoc] using hid


theorem filter_origin_of_removed (l : List (Source × Source)) (x : String) :
    (l.filter (fun e => e.1.username ≠ x)).filter (fun e => e.1.username = x) = [] := by
  rw [List.filter_eq_nil_iff]
  intro e he
  have h := (List.mem_filter.1 he).2
  simpa using h

theorem latchOn_latches_origin (r : SourceList) (a b : Source) :
    (latchOn r a b).1.latches.filter (fun e => e.1.username = a.username) = [(a, b)] := by
  simp only [latchOn, List.filter_append, filter_origin_of_removed, List.nil_append]
  simp

theorem outDegree_latchOn_le (r : SourceList) (a b x : Source) (h : outDegree r x ≤ 1) :
    outDegree (latchOn r a b).1 x ≤ 1 := by
  by_cases hx : x.username = a.username
  · simp only [outDegree, hx, latchOn_latches_origin, List.length_singleton, le_refl]
  · simp only [outDegree, latchOn, List.filter_append, List.length_append] at h ⊢
    have h1 : ([(a, b)].filter (fun e : Source × Source => e.1.username = x.username)) = [] := by
      simp [List.filter_cons, Ne.symm hx]
    rw [h1, List.length_nil, Nat.add_zero]
    exact le_trans ((List.filter_sublist _).filter _).length_le h

theorem outDegree_latchOff_le (r : SourceList) (a x : Source) (h : outDegree r x ≤ 1) :
    outDegree (latchOff r a).1 x ≤ 1 := by
  simp only [outDegree, latchOff] at h ⊢
  exact le_trans ((List.filter_sublist _).filter _).length_le h

theorem outDegree_latchRun_le (ops : List LatchOp) (r : SourceList)
    (h : ∀ x, outDegree r x ≤ 1) : ∀ x, outDegree (latchRun r ops) x ≤ 1 := by
  induction ops generalizing r with
  | nil => exact h
  | cons op rest ih =>
    apply ih
    intro x
    cases op with
    | latchOn a b => exact outDegree_latchOn_le r a b x (h x)
    | latchOff a => exact outDegree_latchOff_le r a x (h x)

end SourceList

open SourceList

/-- C8 (as stated, it fails): when two Sources with different usernames carry
the same id, the two maps do not pair off: both Sources are registered, and the
map from id to username holds one entry, for the later one. This happens with
two `get` calls whose new Sources receive the same id, and with two `add` calls
of Sources that bear the same id. -/
theorem registry_maps_unpaired_on_shared_id :
    count (run (fun _ => 0) empty [RegistryOp.get "bob" "Bob", RegistryOp.get "carol" "Carol"])
        = 2
      ∧ (run (fun _ => 0) empty
            [RegistryOp.get "bob" "Bob", RegistryOp.get "carol" "Carol"]).m_sources_id2name
          = [(0, "carol")]
      ∧ count (run (fun _ => 0) empty
            [RegistryOp.add bob, RegistryOp.add { carol with id := 2 }])
          = 2
      ∧ (run (fun _ => 0) empty
            [RegistryOp.add bob, RegistryOp.add { carol with id := 2 }]).m_sources_id2name
          = [(2, "carol")] := by
  decide

/-- C8 (amended): for every sequence of `add( source )` and
`get( username, friendlyName )` calls on a fresh registry, `count()` is the number of distinct usernames
registered so far; a call for a username already registered leaves the registry
and so `count()` as they are; and, Source ids being ids of one username each,
the map keyed by username and the map from id to username pair off: both have
one entry per key, they have the same size, and `id` maps to `name` exactly when
the Source held under `name` has that id. -/
theorem registry_count_distinct_usernames (newId : String → Int) (ops : List RegistryOp) :
    count (run newId empty ops) = ((ops.map RegistryOp.username).dedup).length
      ∧ (∀ op : RegistryOp, op.username ∈ ops.map RegistryOp.username →
          step newId (run newId empty ops) op = run newId empty ops
            ∧ count (step newId (run newId empty ops) op) ≤ count (run newId empty ops))
      ∧ ((∀ a ∈ ops.map (RegistryOp.source newId), ∀ b ∈ ops.map (RegistryOp.source newId),
            a.id = b.id → a.username = b.username) →
          (QMap.keys (run newId empty ops).m_sources).Nodup
            ∧ (QMap.keys (run newId empty ops).m_sources_id2name).Nodup
            ∧ QMap.size (run newId empty ops).m_sources_id2name
                = QMap.size (run newId empty ops).m_sources
            ∧ ∀ (i : Int) (n : String),
                (i, n) ∈ (run newId empty ops).m_sources_id2name
                  ↔ ∃ s, (n, s) ∈ (run newId empty ops).m_sources ∧ s.id = i) := by
  have hreg := foldl_registered (ops.map (RegistryOp.source newId)) empty [] registered_empty
  rw [← run_eq_foldl, List.nil_append] at hreg
  obtain ⟨hnd, hkeys, hent⟩ := hreg
  have hnames : (ops.map (RegistryOp.source newId)).map Source.username
      = ops.map RegistryOp.username := by
    simp only [List.map_map]
    apply List.map_congr_left
    intro op _
    exact source_username newId op
  rw [hnames] at hkeys
  refine ⟨?_, ?_, ?_⟩
  · have hperm : List.Perm (QMap.keys (run newId empty ops).m_sources)
        ((ops.map RegistryOp.username).dedup) := by
      rw [List.perm_ext_iff_of_nodup hnd (List.nodup_dedup _)]
      intro n
      rw [hkeys n, List.mem_dedup]
    rw [← hperm.length_eq]
    simp [count, QMap.size, QMap.keys]
  · intro op hop
    have hmem : (op.source newId).username ∈ QMap.keys (run newId empty ops).m_sources := by
      rw [source_username]
      exact (hkeys _).2 hop
    have hstep : step newId (run newId empty ops) op = run newId empty ops := by
      rw [step_eq_add, add_of_mem _ _ hmem]
    exact ⟨hstep, by rw [hstep]⟩
  · intro hid
    have hids := foldl_idsMatch (ops.map (RegistryOp.source newId)) empty []
      registered_empty idsMatch_empty (by simpa using hid)
    rw [← run_eq_foldl] at hids
    exact ⟨hnd, hids.1, hids.2.1, hids.2.2⟩


/-- C8 (amended) at a sequence of five calls with a repeated username. -/
theorem registry_count_distinct_usernames_witness :
    (∀ a ∈ sampleOps.map (RegistryOp.source sampleNewId),
        ∀ b ∈ sampleOps.map (RegistryOp.source sampleNewId),
          a.id = b.id → a.username = b.username)
      ∧ (RegistryOp.get "bob" "Robert").username ∈ sampleOps.map RegistryOp.username
      ∧ count (run sampleNewId empty sampleOps) = 4
      ∧ count (step sampleNewId (run sampleNewId empty sampleOps)
            (RegistryOp.get "bob" "Robert"))
          ≤ count (run sampleNewId empty sampleOps)
      ∧ QMap.size (run sampleNewId empty sampleOps).m_sources_id2name
          = QMap.size (run sampleNewId empty sampleOps).m_sources :=
  ⟨by decide, by decide,
    (registry_count_distinct_usernames sampleNewId sampleOps).1.trans (by decide),
    ((registry_count_distinct_usernames sampleNewId sampleOps).2.1
      (RegistryOp.get "bob" "Robert") (by decide)).2,
    ((registry_count_distinct_usernames sampleNewId sampleOps).2.2 (by decide)).2.2.1⟩

/-- C9: `sources( true )` holds exactly the registered Sources that are online
or local, `sources()` after `removeAllRemote()` holds exactly the registered
Sources that are local or web, and one removal notification is emitted per
Source removed; for the registry with local alice, online bob and offline
carol, `sources( true )` is alice, bob and `sources()` after
`removeAllRemote()` is alice. -/
theorem sources_online_and_removeAllRemote :
    (∀ (r : SourceList) (s : Source),
        s ∈ sources r true ↔ s ∈ sources r false ∧ (s.online = true ∨ s.isLocal = true))
      ∧ (∀ r : SourceList, sources r false = QMap.values r.m_sources)
      ∧ (∀ (r : SourceList) (s : Source),
          s ∈ sources (removeAllRemote r).1 false
            ↔ s ∈ sources r false ∧ (s.isLocal = true ∨ s.isWeb = true))
      ∧ (∀ (r : SourceList) (s : Source),
          Notification.sourceRemoved s ∈ (removeAllRemote r).2
            ↔ s ∈ sources r false ∧ s.isLocal = false ∧ s.isWeb = false)
      ∧ sources scenarioRegistry false = [alice, bob, carol]
      ∧ (alice.isLocal = true ∧ bob.isLocal = false ∧ bob.online = true
          ∧ carol.isLocal = false ∧ carol.online = false)
      ∧ sources scenarioRegistry true = [alice, bob]
      ∧ sources (removeAllRemote scenarioRegistry).1 false = [alice]
      ∧ (removeAllRemote scenarioRegistry).2
          = [Notification.sourceRemoved bob, Notification.sourceRemoved carol] := by
  have hfalse : ∀ r : SourceList, sources r false = QMap.values r.m_sources := by
    intro r
    simp [sources]
  refine ⟨?_, hfalse, ?_, ?_, by decide, by decide, by decide, by decide, by decide⟩
  · intro r s
    rw [hfalse]
    simp [sources, isOnline]
  · intro r s
    rw [hfalse, hfalse]
    simp only [removeAllRemote, QMap.values, List.mem_map, List.mem_filter, isRemote]
    constructor
    · rintro ⟨e, ⟨he, hk⟩, rfl⟩
      refine ⟨⟨e, he, rfl⟩, ?_⟩
      cases hl : e.2.isLocal <;> cases hw : e.2.isWeb <;> simp [hl, hw] at hk ⊢
    · rintro ⟨⟨e, he, rfl⟩, hk⟩
      refine ⟨e, ⟨he, ?_⟩, rfl⟩
      rcases hk with hk | hk <;> simp [hk]
  · intro r s
    rw [hfalse]
    simp only [removeAllRemote, List.mem_map, List.mem_filter, isRemote]
    constructor
    · rintro ⟨t, ⟨ht, hk⟩, heq⟩
      have hts : t = s := by injection heq
      subst hts
      exact ⟨ht, by simpa using hk⟩
    · rintro ⟨hs, hl, hw⟩
      exact ⟨s, ⟨hs, by simp [hl, hw]⟩, rfl⟩

/-- C10: for all Sources A, B, C and every registry, `latchOn( A, B )` followed
by `latchOn( A, C )` emits `sourceLatchedOff( A, B )` and then
`sourceLatchedOn( A, C )`, and nothing else, and leaves A with the one edge to
C; and after any sequence of `latchOn` and `latchOff` calls on a fresh registry
every Source has at most one outgoing latch edge. -/
theorem latchOn_replaces_edge :
    (∀ (r : SourceList) (a b c : Source),
        (latchOn (latchOn r a b).1 a c).2
          = [Notification.sourceLatchedOff a b, Notification.sourceLatchedOn a c])
      ∧ (∀ (r : SourceList) (a b c : Source),
          (latchOn (latchOn r a b).1 a c).1.latches.filter
              (fun e => e.1.username = a.username) = [(a, c)])
      ∧ (∀ (ops : List LatchOp) (x : Source), outDegree (latchRun empty ops) x ≤ 1) := by
  refine ⟨?_, ?_, ?_⟩
  · intro r a b c
    have h := latchOn_latches_origin r a b
    simp only [latchOn] at h ⊢
    rw [h]
    rfl
  · intro r a b c
    exact latchOn_latches_origin _ a c
  · intro ops x
    exact outDegree_latchRun_le ops empty (fun y => by simp [outDegree, empty]) x

/-- C16: the handlers `resolveResultsAdded` and `resolvingFinished` leave the
cursor, and with it its Source, as they found it, for every batch of Results
and every flag, so that `nextItem()`, `siblingItem( offset )` and `tracks()`
give after the handler what they gave before; all that the handlers do is
write debug lines. -/
theorem handlers_preserve_cursor (c : SourcePlaylistInterface) (batch : List Result)
    (hasResults : Bool) (itemsAway : Int) :
    (resolveResultsAdded c batch).self = c
      ∧ (resolvingFinished c hasResults).self = c
      ∧ nextItem (resolveResultsAdded c batch).self = nextItem c
      ∧ siblingItem (resolveResultsAdded c batch).self itemsAway = siblingItem c itemsAway
      ∧ tracks (resolveResultsAdded c batch).self = tracks c
      ∧ nextItem (resolvingFinished c hasResults).self = nextItem c
      ∧ siblingItem (resolvingFinished c hasResults).self itemsAway = siblingItem c itemsAway
      ∧ tracks (resolvingFinished c hasResults).self = tracks c
      ∧ submissions (resolveResultsAdded c batch).effects = []
      ∧ connections (resolveResultsAdded c batch).effects = []
      ∧ submissions (resolvingFinished c hasResults).effects = []
      ∧ connections (resolvingFinished c hasResults).effects = [] := by
  refine ⟨rfl, rfl, rfl, rfl, rfl, rfl, rfl, rfl, ?_, ?_, rfl, rfl⟩
  · simp only [resolveResultsAdded, submissions]
    induction batch with
    | nil => rfl
    | cons r rest ih => simpa [submissions] using ih
  · simp only [resolveResultsAdded, connections]
    induction batch with
    | nil => rfl
    | cons r rest ih => simpa [connections] using ih

/-! ## Properties of the logger -/

namespace Logger

theorem toInt_zero : toInt 0 = 0 := by
  simp [toInt]

theorem toInt_of_lt (d : Nat) (h : d < 2147483648) : toInt d = (d : Int) := by
  have h1 : d % 4294967296 = d := Nat.mod_eq_of_lt (by omega)
  simp [toInt, h1, h]

theorem toInt_of_ge (d : Nat) (h1 : 2147483648 ≤ d) (h2 : d < 4294967296) :
    toInt d = (d : Int) - 4294967296 := by
  have hm : d % 4294967296 = d := Nat.mod_eq_of_lt h2
  have hn : ¬ d < 2147483648 := by omega
  simp [toInt, hm, hn]

theorem toUnsigned_of_nonneg (x : Int) (h1 : 0 ≤ x) (h2 : x < 4294967296) :
    ((toUnsigned x : Nat) : Int) = x := by
  unfold toUnsigned
  rw [Int.emod_eq_of_lt h1 h2]
  exact Int.toNat_of_nonneg h1

theorem initThreshold_nonneg (build : Build) (lv : LogLevels) (arguments : List String)
    (t : Int) (h1 : 0 ≤ lv.LOGEXTRA) (h2 : 0 ≤ lv.LOGTHIRDPARTY) :
    0 ≤ initThreshold build lv arguments t := by
  unfold initThreshold
  split
  · split
    · exact h2
    · cases build
      · simp [buildThreshold, RELEASE_LEVEL_THRESHOLD]
      · simpa [buildThreshold, DEBUG_LEVEL_THRESHOLD] using h1
  · omega

theorem writesCout_of_writesFile (build : Build) (lv : LogLevels) (t : Int) (d : Nat)
    (toDisk : Bool) (h : writesFile build lv t d toDisk = true) : writesCout lv t d = true := by
  simp only [writesFile, writesCout, effectiveToDisk, Bool.or_eq_true, decide_eq_true_eq] at h ⊢
  rcases h with h | h
  · left
    split at h
    · exact absurd h (by simp)
    · next hle =>
      cases build
      · simp only [buildThreshold, RELEASE_LEVEL_THRESHOLD, toUnsigned] at hle
        have h0 : d % 4294967296 = 0 := by simpa using hle
        rw [h0]
        exact Nat.zero_le _
      · simp only [buildThreshold, DEBUG_LEVEL_THRESHOLD] at hle
        exact Nat.le_of_not_lt hle
  · exact Or.inr h

end Logger

open Logger

/-- C17: in debug and in release builds, for every level, `toDisk` argument and
threshold, the condition under which `log` writes to the log file implies the
condition under which it writes to `cout`: whenever `log` adds a line to the
log file, it adds the message to `cout`. This holds whatever the value of
`LOGEXTRA`. -/
theorem log_file_write_implies_console_write (build : Build) (lv : LogLevels)
    (arguments : List String) (now : String) (st : LoggerState) (msg : String)
    (debugLevel : Nat) (toDisk : Bool) :
    (∀ threshold : Int, writesFile build lv threshold debugLevel toDisk = true →
        writesCout lv threshold debugLevel = true)
      ∧ ((log build lv arguments now st msg debugLevel toDisk).logfile ≠ st.logfile →
          (log build lv arguments now st msg debugLevel toDisk).cout = st.cout ++ [msg]) := by
  refine ⟨fun t h => writesCout_of_writesFile build lv t debugLevel toDisk h, ?_⟩
  intro hne
  simp only [log] at hne ⊢
  by_cases hf : writesFile build lv (initThreshold build lv arguments st.s_threshold)
      debugLevel toDisk = true
  · rw [writesCout_of_writesFile build lv _ debugLevel toDisk hf]
    simp
  · simp [hf] at hne

/-- C17 at a level-3 message in a fresh debug build. -/
theorem log_file_write_implies_console_write_witness :
    writesFile Build.debug sampleLevels 5 3 true = true
      ∧ writesCout sampleLevels 5 3 = true
      ∧ (log Build.debug sampleLevels [] "12:00:00" freshLogger "m" 3 true).logfile
          ≠ freshLogger.logfile
      ∧ (log Build.debug sampleLevels [] "12:00:00" freshLogger "m" 3 true).cout
          = freshLogger.cout ++ ["m"] :=
  ⟨by decide,
    (log_file_write_implies_console_write Build.debug sampleLevels [] "12:00:00" freshLogger
      "m" 3 true).1 5 (by decide),
    by decide,
    (log_file_write_implies_console_write Build.debug sampleLevels [] "12:00:00" freshLogger
      "m" 3 true).2 (by decide)⟩

/-- C14: with `0 <= LOGEXTRA <= LOGTHIRDPARTY`, a message of level 0 is written
to the log file and to `cout`, in debug and release builds, with or without
`--verbose`, whatever the state of the logger and the `toDisk` argument; so
`TomahawkLogHandler` writes a Qt warning, critical or fatal message to both,
and it passes a Qt debug message to `log` at level `LOGTHIRDPARTY`. -/
theorem level_zero_written_to_both (lv : LogLevels) (h₁ : 0 ≤ lv.LOGEXTRA)
    (h₂ : lv.LOGEXTRA ≤ lv.LOGTHIRDPARTY) (build : Build) (arguments : List String)
    (now : String) (st : LoggerState) (msg : String) (toDisk : Bool) (type : QtMsgType) :
    ((log build lv arguments now st msg 0 toDisk).logfile
        = st.logfile ++ [{ time := now, level := 0, msg := msg }]
      ∧ (log build lv arguments now st msg 0 toDisk).cout = st.cout ++ [msg])
    ∧ (type ≠ QtMsgType.QtDebugMsg →
        (TomahawkLogHandler build lv arguments now st type msg).logfile
            = st.logfile ++ [{ time := now, level := 0, msg := msg }]
          ∧ (TomahawkLogHandler build lv arguments now st type msg).cout = st.cout ++ [msg])
    ∧ TomahawkLogHandler build lv arguments now st QtMsgType.QtDebugMsg msg
        = log build lv arguments now st msg (toUnsigned lv.LOGTHIRDPARTY) true
    ∧ (lv.LOGTHIRDPARTY < 4294967296 →
        ((toUnsigned lv.LOGTHIRDPARTY : Nat) : Int) = lv.LOGTHIRDPARTY) := by
  have hthr : 0 ≤ initThreshold build lv arguments st.s_threshold :=
    initThreshold_nonneg build lv arguments st.s_threshold h₁ (le_trans h₁ h₂)
  have hlog : ∀ flag : Bool,
      (log build lv arguments now st msg 0 flag).logfile
          = st.logfile ++ [{ time := now, level := 0, msg := msg }]
        ∧ (log build lv arguments now st msg 0 flag).cout = st.cout ++ [msg] := by
    intro flag
    have hf : writesFile build lv (initThreshold build lv arguments st.s_threshold) 0 flag
        = true := by
      simp only [writesFile, Bool.or_eq_true, decide_eq_true_eq]
      right
      rw [toInt_zero]
      exact hthr
    have hc : writesCout lv (initThreshold build lv arguments st.s_threshold) 0 = true :=
      writesCout_of_writesFile build lv _ 0 flag hf
    simp [log, hf, hc]
  refine ⟨hlog toDisk, ?_, rfl, ?_⟩
  · intro hne
    cases type with
    | QtDebugMsg => exact absurd rfl hne
    | QtWarningMsg => exact hlog true
    | QtCriticalMsg => exact hlog true
    | QtFatalMsg => exact hlog true
  · intro hlt
    exact toUnsigned_of_nonneg _ (le_trans h₁ h₂) hlt

/-- C14 at a Qt warning in a fresh release build without `--verbose`. -/
theorem level_zero_written_to_both_witness :
    (0 ≤ sampleLevels.LOGEXTRA ∧ sampleLevels.LOGEXTRA ≤ sampleLevels.LOGTHIRDPARTY)
      ∧ QtMsgType.QtWarningMsg ≠ QtMsgType.QtDebugMsg
      ∧ (TomahawkLogHandler Build.release sampleLevels [] "12:00:00" freshLogger
            QtMsgType.QtWarningMsg "m").logfile
          = freshLogger.logfile ++ [{ time := "12:00:00", level := 0, msg := "m" }]
      ∧ (TomahawkLogHandler Build.release sampleLevels [] "12:00:00" freshLogger
            QtMsgType.QtWarningMsg "m").cout
          = freshLogger.cout ++ ["m"] :=
  ⟨by decide, by decide,
    (level_zero_written_to_both sampleLevels (by decide) (by decide) Build.release []
      "12:00:00" freshLogger "m" true QtMsgType.QtWarningMsg).2.1 (by decide)⟩

/-- For levels below `2^31` the logger is silent above `LOGEXTRA` and the
threshold in force. -/
theorem log_silent_above_threshold (build : Build) (lv : LogLevels) (arguments : List String)
    (now : String) (st : LoggerState) (msg : String) (d : Nat) (toDisk : Bool)
    (hd : d < 2147483648)
    (hx : toUnsigned lv.LOGEXTRA < d)
    (ht : initThreshold build lv arguments st.s_threshold < (d : Int)) :
    (log build lv arguments now st msg d toDisk).logfile = st.logfile
      ∧ (log build lv arguments now st msg d toDisk).cout = st.cout := by
  have hm : d % 4294967296 = d := Nat.mod_eq_of_lt (by omega)
  have hc : writesCout lv (initThreshold build lv arguments st.s_threshold) d = false := by
    simp only [writesCout, Bool.or_eq_false_iff, decide_eq_false_iff_not, hm, toInt_of_lt d hd]
    exact ⟨by omega, by omega⟩
  have hf : writesFile build lv (initThreshold build lv arguments st.s_threshold) d toDisk
      = false := by
    cases hfile : writesFile build lv (initThreshold build lv arguments st.s_threshold) d toDisk
    · rfl
    · rw [writesCout_of_writesFile build lv _ d toDisk hfile] at hc
      exact absurd hc (by simp)
  simp [log, hf, hc]

/-- C13 (the code at the failing input): with `LOGEXTRA` and `LOGTHIRDPARTY`
non-negative `int` constants, a level from `2^31` on is greater than `LOGEXTRA`
and than the threshold that a first call of `log` puts in force, and yet `log`
writes the message to the log file and to `cout`, whatever `toDisk`: the cast
`(int)debugLevel` is negative. -/
theorem log_writes_at_wrapped_level (lv : LogLevels) (build : Build)
    (arguments : List String) (now : String) (logfile : List LogLine) (cout : List String)
    (msg : String) (d : Nat) (toDisk : Bool)
    (h₁ : 0 ≤ lv.LOGEXTRA) (h₂ : lv.LOGEXTRA < 2147483648)
    (h₃ : 0 ≤ lv.LOGTHIRDPARTY) (h₄ : lv.LOGTHIRDPARTY < 2147483648)
    (hd₁ : 2147483648 ≤ d) (hd₂ : d < 4294967296) :
    lv.LOGEXTRA < (d : Int)
      ∧ initThreshold build lv arguments (-1) < (d : Int)
      ∧ toInt d < 0
      ∧ (log build lv arguments now { s_threshold := -1, logfile := logfile, cout := cout }
            msg d toDisk).logfile
          = logfile ++ [{ time := now, level := d, msg := msg }]
      ∧ (log build lv arguments now { s_threshold := -1, logfile := logfile, cout := cout }
            msg d toDisk).cout
          = cout ++ [msg] := by
  have hthr : 0 ≤ initThreshold build lv arguments (-1) :=
    initThreshold_nonneg build lv arguments (-1) h₁ h₃
  have hlt : initThreshold build lv arguments (-1) < (d : Int) := by
    have hb : initThreshold build lv arguments (-1) < 2147483648 := by
      unfold initThreshold
      simp only [show ((-1 : Int) < 0) from by decide, if_true]
      split
      · exact h₄
      · cases build
        · simp [buildThreshold, RELEASE_LEVEL_THRESHOLD]
        · simpa [buildThreshold, DEBUG_LEVEL_THRESHOLD] using h₂
    omega
  have hneg : toInt d < 0 := by
    rw [toInt_of_ge d hd₁ hd₂]
    omega
  have hm : d % 4294967296 = d := Nat.mod_eq_of_lt hd₂
  have hf : writesFile build lv (initThreshold build lv arguments (-1)) d toDisk = true := by
    simp only [writesFile, Bool.or_eq_true, decide_eq_true_eq]
    right
    omega
  have hc : writesCout lv (initThreshold build lv arguments (-1)) d = true :=
    writesCout_of_writesFile build lv _ d toDisk hf
  refine ⟨by omega, hlt, hneg, ?_, ?_⟩
  · simp [log, hf, hm]
  · simp [log, hc]

/-- C13 at level `2147483648` in a fresh release build, with `toDisk` false. -/
theorem log_writes_at_wrapped_level_witness :
    (0 ≤ sampleLevels.LOGEXTRA ∧ sampleLevels.LOGEXTRA < 2147483648
        ∧ 0 ≤ sampleLevels.LOGTHIRDPARTY ∧ sampleLevels.LOGTHIRDPARTY < 2147483648)
      ∧ sampleLevels.LOGEXTRA < ((2147483648 : Nat) : Int)
      ∧ initThreshold Build.release sampleLevels [] (-1) < ((2147483648 : Nat) : Int)
      ∧ toInt 2147483648 < 0
      ∧ (log Build.release sampleLevels [] "12:00:00"
            { s_threshold := -1, logfile := [], cout := [] } "m" 2147483648 false).logfile
          = [] ++ [{ time := "12:00:00", level := 2147483648, msg := "m" }]
      ∧ (log Build.release sampleLevels [] "12:00:00"
            { s_threshold := -1, logfile := [], cout := [] } "m" 2147483648 false).cout
          = [] ++ ["m"] :=
  ⟨by decide,
    log_writes_at_wrapped_level sampleLevels Build.release [] "12:00:00" [] [] "m" 2147483648
      false (by decide) (by decide) (by decide) (by decide) (by decide) (by decide)⟩

namespace Pipeline

theorem accept_fresh (fp : Result → String) (batch attached : List Result) :
    ∀ x ∈ accept fp attached batch, fp x ∉ attached.map fp := by
  induction batch generalizing attached with
  | nil => simp [accept]
  | cons r rest ih =>
    by_cases hr : fp r ∈ attached.map fp
    · simpa [accept, hr] using ih attached
    · simp only [accept, hr, if_false]
      intro x hx
      rw [List.mem_cons] at hx
      rcases hx with hx | hx
      · rw [hx]; exact hr
      · intro hmem
        apply ih (attached ++ [r]) x hx
        rw [List.map_append]
        exact List.mem_append_left _ hmem

theorem accept_nodup (fp : Result → String) (batch attached : List Result)
    (h : (attached.map fp).Nodup) : ((attached ++ accept fp attached batch).map fp).Nodup := by
  induction batch generalizing attached with
  | nil => simpa [accept] using h
  | cons r rest ih =>
    by_cases hr : fp r ∈ attached.map fp
    · simpa [accept, hr] using ih attached h
    · have hnd : ((attached ++ [r]).map fp).Nodup := by
        rw [List.map_append, List.map_cons, List.map_nil]
        refine List.Nodup.append h (List.nodup_singleton _) ?_
        intro a ha hb
        rw [List.mem_singleton] at hb
        exact hr (hb ▸ ha)
      have h1 := ih (attached ++ [r]) hnd
      simp only [accept, hr, if_false]
      simpa [List.append_assoc] using h1

/-- What one event does: nothing to the notifications and the Result list, or
one incremental notification on a live Query, or the one terminal notification
that finishes a live Query. -/
theorem step_cases (fp : Result → String) (s : Resolution) (e : PipelineEvent) :
    ((step fp s e).2 = [] ∧ (step fp s e).1.finished = s.finished
        ∧ (step fp s e).1.query = s.query)
      ∨ (∃ batch, (step fp s e).2 = [QueryNotification.resultsAdded batch]
          ∧ (step fp s e).1.finished = false ∧ s.finished = false)
      ∨ ((step fp s e).2 = [QueryNotification.resolvingFinished (!s.query.results.isEmpty)]
          ∧ (step fp s e).1.finished = true ∧ s.finished = false
          ∧ (step fp s e).1.query = s.query) := by
  by_cases hclosed : (s.cancelled || s.finished) = true
  · left
    cases e with
    | cancel => exact ⟨rfl, rfl, rfl⟩
    | timeout => simp [step, hclosed]
    | done backend => simp [step, hclosed]
    | delivered batch => simp [step, hclosed]
  · have hf : s.finished = false := by
      cases h : s.finished
      · rfl
      · simp [h] at hclosed
    have hc : s.cancelled = false := by
      cases h : s.cancelled
      · rfl
      · simp [h] at hclosed
    cases e with
    | cancel => exact Or.inl ⟨rfl, rfl, rfl⟩
    | timeout =>
      right; right
      simp [step, hc, hf, finish]
    | done backend =>
      cases hlast : (s.pending.filter (fun b => b ≠ backend)).isEmpty with
      | true =>
        right; right
        simp only [step, hc, hf, hlast, finish, Bool.or_false, Bool.false_eq_true, if_false,
          if_true, and_self]
      | false =>
        left
        simp only [step, hc, hf, hlast, Bool.or_false, Bool.false_eq_true, if_false, and_self]
    | delivered batch =>
      cases hacc : accept fp s.query.results batch with
      | nil =>
        left
        simp [step, hc, hf, hacc]
      | cons r rest =>
        right; left
        exact ⟨r :: rest, by simp [step, hc, hf, hacc], by simp [step, hc, hf, hacc], hf⟩

theorem step_results (fp : Result → String) (s : Resolution) (e : PipelineEvent) :
    ∃ added, (step fp s e).1.query.results = s.query.results ++ added
      ∧ (∀ x ∈ added, fp x ∉ s.query.results.map fp)
      ∧ ((s.query.results.map fp).Nodup →
          (((step fp s e).1.query.results).map fp).Nodup) := by
  have hsame : (step fp s e).1.query = s.query →
      ∃ added, (step fp s e).1.query.results = s.query.results ++ added
        ∧ (∀ x ∈ added, fp x ∉ s.query.results.map fp)
        ∧ ((s.query.results.map fp).Nodup →
            (((step fp s e).1.query.results).map fp).Nodup) := by
    intro h
    exact ⟨[], by rw [h, List.append_nil], by simp, by rw [h]; exact id⟩
  rcases step_cases fp s e with h | h | h
  · exact hsame h.2.2
  · obtain ⟨batch, hnote, _, hf⟩ := h
    cases e with
    | cancel => exact hsame rfl
    | timeout => simp [step, hf, finish] at hnote; split at hnote <;> simp at hnote
    | done backend =>
      simp only [step, hf, finish, Bool.or_false] at hnote
      split at hnote
      · simp at hnote
      · split at hnote <;> simp at hnote
    | delivered b =>
      by_cases hc : s.cancelled = true
      · simp [step, hc] at hnote
      · have hc2 : s.cancelled = false := by simpa using hc
        cases hacc : accept fp s.query.results b with
        | nil => simp [step, hc2, hf, hacc] at hnote
        | cons r rest =>
          refine ⟨r :: rest, by simp [step, hc2, hf, hacc], ?_, ?_⟩
          · intro x hx
            rw [← hacc] at hx
            exact accept_fresh fp b s.query.results x hx
          · intro hnd
            have h2 := accept_nodup fp b s.query.results hnd
            rw [hacc] at h2
            simpa [step, hc2, hf, hacc] using h2
  · exact hsame h.2.2.2

theorem accept_sublist (fp : Result → String) (batch attached : List Result) :
    (accept fp attached batch).Sublist batch := by
  induction batch generalizing attached with
  | nil => simp [accept]
  | cons r rest ih =>
    by_cases hr : fp r ∈ attached.map fp
    · simp only [accept, hr, if_true]
      exact (ih attached).cons r
    · simp only [accept, hr, if_false]
      exact (ih (attached ++ [r])).cons₂ r

theorem accept_covers (fp : Result → String) (batch attached : List Result) :
    ∀ r ∈ batch, fp r ∈ (attached ++ accept fp attached batch).map fp := by
  induction batch generalizing attached with
  | nil => simp
  | cons r0 rest ih =>
    intro r hr
    by_cases h0 : fp r0 ∈ attached.map fp
    · simp only [accept, h0, if_true]
      rcases List.mem_cons.1 hr with hr | hr
      · rw [hr, List.map_append]
        exact List.mem_append_left _ h0
      · exact ih attached r hr
    · simp only [accept, h0, if_false]
      have hshape : attached ++ r0 :: accept fp (attached ++ [r0]) rest
          = (attached ++ [r0]) ++ accept fp (attached ++ [r0]) rest := by
        simp [List.append_assoc]
      rw [hshape]
      rcases List.mem_cons.1 hr with hr | hr
      · rw [hr, List.map_append]
        exact List.mem_append_left _ (by simp)
      · exact ih (attached ++ [r0]) r hr

theorem accept_first (fp : Result → String) (batch attached : List Result) :
    ∀ x ∈ accept fp attached batch,
      ∃ before after, batch = before ++ x :: after ∧ ∀ y ∈ before, fp y ≠ fp x := by
  induction batch generalizing attached with
  | nil => simp [accept]
  | cons r0 rest ih =>
    intro x hx
    by_cases h0 : fp r0 ∈ attached.map fp
    · simp only [accept, h0, if_true] at hx
      obtain ⟨b, a, hsplit, hb⟩ := ih attached x hx
      refine ⟨r0 :: b, a, by rw [hsplit]; rfl, ?_⟩
      intro y hy
      rcases List.mem_cons.1 hy with hy | hy
      · rw [hy]
        intro heq
        exact accept_fresh fp rest attached x hx (heq ▸ h0)
      · exact hb y hy
    · simp only [accept, h0, if_false] at hx
      rcases List.mem_cons.1 hx with hx | hx
      · exact ⟨[], rest, by rw [hx]; rfl, by simp⟩
      · obtain ⟨b, a, hsplit, hb⟩ := ih (attached ++ [r0]) x hx
        refine ⟨r0 :: b, a, by rw [hsplit]; rfl, ?_⟩
        intro y hy
        rcases List.mem_cons.1 hy with hy | hy
        · rw [hy]
          intro heq
          apply accept_fresh fp rest (attached ++ [r0]) x hx
          rw [← heq, List.map_append]
          exact List.mem_append_right _ (by simp)
        · exact hb y hy

theorem step_delivered_live (fp : Result → String) (s : Resolution) (batch : List Result)
    (hc : s.cancelled = false) (hf : s.finished = false) :
    (step fp s (PipelineEvent.delivered batch)).1.query.results
      = s.query.results ++ accept fp s.query.results batch := by
  cases hacc : accept fp s.query.results batch with
  | nil => simp [step, hc, hf, hacc]
  | cons r rest => simp [step, hc, hf, hacc]

theorem resolve_query (backends : List Backend) (q : Query) (fast : Bool) :
    (resolve backends q fast).1.query = q := by
  unfold resolve
  split <;> rfl

theorem run_snoc (fp : Result → String) (backends : List Backend) (q : Query) (fast : Bool)
    (events : List PipelineEvent) (e : PipelineEvent) :
    run fp backends q fast (events ++ [e]) = advance fp (run fp backends q fast events) e := by
  simp [run, List.foldl_append]

theorem foldl_nodup (fp : Result → String) (events : List PipelineEvent)
    (p : Resolution × List QueryNotification) (h : (p.1.query.results.map fp).Nodup) :
    (((events.foldl (advance fp) p).1.query.results).map fp).Nodup := by
  induction events generalizing p with
  | nil => exact h
  | cons e rest ih =>
    apply ih
    obtain ⟨_, _, _, hnd⟩ := step_results fp p.1 e
    exact hnd h

theorem terminals_append (a b : List QueryNotification) :
    terminals (a ++ b) = terminals a ++ terminals b := by
  induction a with
  | nil => rfl
  | cons n rest ih =>
    cases n with
    | resultsAdded batch => simpa [terminals] using ih
    | resolvingFinished flag => simpa [terminals] using ih

/-- The notifications of a Query agree with its finished flag: none of them is
terminal while the Query is not finished, and once it is, the last notification
is the terminal one, with the flag of the Result list, and the only one. -/
theorem advance_consistent (fp : Result → String) (p : Resolution × List QueryNotification)
    (e : PipelineEvent)
    (h : (p.1.finished = false → terminals p.2 = [])
      ∧ (p.1.finished = true → ∃ earlier,
          p.2 = earlier ++ [QueryNotification.resolvingFinished (!p.1.query.results.isEmpty)]
            ∧ terminals earlier = [])) :
    ((advance fp p e).1.finished = false → terminals (advance fp p e).2 = [])
      ∧ ((advance fp p e).1.finished = true → ∃ earlier,
          (advance fp p e).2
              = earlier ++ [QueryNotification.resolvingFinished
                  (!(advance fp p e).1.query.results.isEmpty)]
            ∧ terminals earlier = []) := by
  simp only [advance]
  rcases step_cases fp p.1 e with hs | hs | hs
  · obtain ⟨hn, hf, hq⟩ := hs
    rw [hn, hf, hq, List.append_nil]
    exact h
  · obtain ⟨batch, hn, hf, hf0⟩ := hs
    rw [hn, hf]
    refine ⟨fun _ => ?_, fun hcontra => absurd hcontra (by simp)⟩
    rw [terminals_append, h.1 hf0]
    rfl
  · obtain ⟨hn, hf, hf0, hq⟩ := hs
    rw [hn, hf, hq]
    exact ⟨fun hcontra => absurd hcontra (by simp), fun _ => ⟨p.2, rfl, h.1 hf0⟩⟩

theorem run_consistent (fp : Result → String) (backends : List Backend) (q : Query)
    (fast : Bool) (events : List PipelineEvent) :
    ((run fp backends q fast events).1.finished = false →
        terminals (run fp backends q fast events).2 = [])
      ∧ ((run fp backends q fast events).1.finished = true → ∃ earlier,
          (run fp backends q fast events).2
              = earlier ++ [QueryNotification.resolvingFinished
                  (!(run fp backends q fast events).1.query.results.isEmpty)]
            ∧ terminals earlier = []) := by
  induction events using List.reverseRecOn with
  | nil =>
    simp only [run, List.foldl_nil, resolve]
    split
    · exact ⟨fun hcontra => absurd hcontra (by simp [finish]),
        fun _ => ⟨[], by simp [finish], rfl⟩⟩
    · exact ⟨fun _ => rfl, fun hcontra => absurd hcontra (by simp)⟩
  | append_singleton init e ih =>
    rw [run_snoc]
    exact advance_consistent fp _ e ih

/-- A finished Query is closed: later events change neither its Result list
nor its notifications. -/
theorem foldl_of_finished (fp : Result → String) (more : List PipelineEvent)
    (p : Resolution × List QueryNotification) (h : p.1.finished = true) :
    (more.foldl (advance fp) p).1.finished = true
      ∧ (more.foldl (advance fp) p).1.query = p.1.query
      ∧ (more.foldl (advance fp) p).2 = p.2 := by
  induction more generalizing p with
  | nil => exact ⟨h, rfl, rfl⟩
  | cons e rest ih =>
    have hstep : (advance fp p e).1.finished = true ∧ (advance fp p e).1.query = p.1.query
        ∧ (advance fp p e).2 = p.2 := by
      simp only [advance]
      rcases step_cases fp p.1 e with hs | hs | hs
      · obtain ⟨hn, hf, hq⟩ := hs
        rw [hn, hf, hq, List.append_nil]
        exact ⟨h, rfl, rfl⟩
      · obtain ⟨_, _, _, hf0⟩ := hs
        rw [h] at hf0
        exact absurd hf0 (by simp)
      · obtain ⟨_, _, hf0, _⟩ := hs
        rw [h] at hf0
        exact absurd hf0 (by simp)
    obtain ⟨h1, h2, h3⟩ := ih (advance fp p e) hstep.1
    simp only [List.foldl_cons]
    exact ⟨h1, h2.trans hstep.2.1, h3.trans hstep.2.2⟩

theorem step_live (fp : Result → String) (s : Resolution) (e : PipelineEvent)
    (hc : s.cancelled = false) (he : e ≠ PipelineEvent.cancel) :
    (step fp s e).1.cancelled = false
      ∧ ((step fp s e).1.finished = false →
          s.finished = false ∧ e ≠ PipelineEvent.timeout
            ∧ (∀ b ∈ (step fp s e).1.pending, b ∈ s.pending)
            ∧ (s.pending ≠ [] → (step fp s e).1.pending ≠ [])
            ∧ ∀ b, e = PipelineEvent.done b → b ∉ (step fp s e).1.pending) := by
  cases hf : s.finished with
  | true =>
    cases e with
    | cancel => exact absurd rfl he
    | timeout => simp [step, hc, hf]
    | done backend => simp [step, hc, hf]
    | delivered batch => simp [step, hc, hf]
  | false =>
    cases e with
    | cancel => exact absurd rfl he
    | timeout => simp [step, hc, hf, finish]
    | done backend =>
      cases hlast : (s.pending.filter (fun b => b ≠ backend)).isEmpty with
      | true =>
        simp only [step, hc, hf, hlast, finish, Bool.or_false, Bool.false_eq_true, if_false,
          if_true]
        exact ⟨trivial, fun hcontra => absurd hcontra (by simp)⟩
      | false =>
        simp only [step, hc, hf, hlast, Bool.or_false, Bool.false_eq_true, if_false]
        refine ⟨trivial, fun _ => ⟨trivial, by simp, ?_, ?_, ?_⟩⟩
        · intro b hb
          exact (List.mem_filter.1 hb).1
        · intro _ hnil
          rw [hnil] at hlast
          simp at hlast
        · intro b hb
          have hbb : backend = b := by injection hb
          subst hbb
          simp [List.mem_filter]
    | delivered batch =>
      cases hacc : accept fp s.query.results batch with
      | nil => simp [step, hc, hf, hacc]
      | cons r rest => simp [step, hc, hf, hacc]

theorem run_live (fp : Result → String) (backends : List Backend) (q : Query) (fast : Bool)
    (events : List PipelineEvent) (hc : PipelineEvent.cancel ∉ events) :
    (run fp backends q fast events).1.cancelled = false
      ∧ ((run fp backends q fast events).1.finished = false →
          (run fp backends q fast events).1.pending ≠ []
            ∧ (∀ b ∈ (run fp backends q fast events).1.pending,
                b ∈ (selectBackends backends fast).map (fun b => b.name))
            ∧ PipelineEvent.timeout ∉ events
            ∧ ∀ b, PipelineEvent.done b ∈ events →
                b ∉ (run fp backends q fast events).1.pending) := by
  induction events using List.reverseRecOn with
  | nil =>
    simp only [run, List.foldl_nil, resolve]
    split
    · exact ⟨rfl, fun hcontra => absurd hcontra (by simp [finish])⟩
    · next hne =>
      refine ⟨rfl, fun _ => ⟨?_, fun b hb => hb, by simp, by simp⟩⟩
      intro hnil
      apply hne
      cases hsel : selectBackends backends fast with
      | nil => rfl
      | cons x xs => simp [hsel] at hnil
  | append_singleton init e ih =>
    have hc1 : PipelineEvent.cancel ∉ init := fun h => hc (List.mem_append_left _ h)
    have he : e ≠ PipelineEvent.cancel := by
      intro h
      apply hc
      rw [h]
      exact List.mem_append_right _ (List.mem_singleton.2 rfl)
    obtain ⟨ihc, ihl⟩ := ih hc1
    have hstep := step_live fp (run fp backends q fast init).1 e ihc he
    rw [run_snoc]
    simp only [advance]
    refine ⟨hstep.1, fun hfin => ?_⟩
    obtain ⟨hf0, hnt, hsub, hne, hdone⟩ := hstep.2 hfin
    obtain ⟨ihne, ihsub, ihnt, ihdone⟩ := ihl hf0
    refine ⟨hne ihne, fun b hb => ihsub b (hsub b hb), ?_, ?_⟩
    · intro hmem
      rcases List.mem_append.1 hmem with h | h
      · exact ihnt h
      · exact hnt (List.mem_singleton.1 h).symm
    · intro b hmem
      rcases List.mem_append.1 hmem with h | h
      · exact fun hb => ihdone b h (hsub b hb)
      · exact hdone b (List.mem_singleton.1 h).symm

theorem run_finishes (fp : Result → String) (backends : List Backend) (q : Query) (fast : Bool)
    (events : List PipelineEvent) (hc : PipelineEvent.cancel ∉ events)
    (h : PipelineEvent.timeout ∈ events
      ∨ ∀ b ∈ selectBackends backends fast, PipelineEvent.done b.name ∈ events) :
    (run fp backends q fast events).1.finished = true := by
  cases hf : (run fp backends q fast events).1.finished with
  | true => rfl
  | false =>
    obtain ⟨hne, hsub, hnt, hdone⟩ := (run_live fp backends q fast events hc).2 hf
    rcases h with h | h
    · exact absurd h hnt
    · cases hp : (run fp backends q fast events).1.pending with
      | nil => exact absurd hp hne
      | cons b rest =>
        have hb : b ∈ (run fp backends q fast events).1.pending := by
          rw [hp]
          exact List.mem_cons_self _ _
        obtain ⟨x, hx, hxb⟩ := List.mem_map.1 (hsub b hb)
        have := hdone b (hxb ▸ h x hx)
        exact absurd hb this

/-- A cancelled Query is closed: later events notify nothing. -/
theorem foldl_of_cancelled (fp : Result → String) (more : List PipelineEvent)
    (p : Resolution × List QueryNotification) (h : p.1.cancelled = true) :
    (more.foldl (advance fp) p).2 = p.2 := by
  induction more generalizing p with
  | nil => rfl
  | cons e rest ih =>
    have hstep : (advance fp p e).1.cancelled = true ∧ (advance fp p e).2 = p.2 := by
      simp only [advance]
      cases e <;> simp [step, h]
    simp only [List.foldl_cons]
    rw [ih (advance fp p e) hstep.1, hstep.2]

end Pipeline

open Pipeline

/-- C11: the Result list of a freshly submitted Query never holds two entries
with the same fingerprint, whatever the backends deliver and whatever else
happens, and an event only appends to the list, so what is attached stays. A
batch delivered while the Query is live appends, in the order of the batch,
exactly the first Result of each fingerprint that was not yet attached: every
fingerprint of the batch is attached afterwards, a Result whose fingerprint was
attached is dropped, and so is one that follows a Result of the same
fingerprint in the batch. Deliveries with fingerprints f1, f1, f2 from two
backends leave exactly 2 entries, the first f1 and f2; a batch f1, f2, f3
followed by another f2 leaves the three first arrivals. -/
theorem results_have_distinct_fingerprints (fp : Result → String) (backends : List Backend)
    (q : Query) (fast : Bool) (events : List PipelineEvent) (e : PipelineEvent)
    (batch : List Result) :
    (((run fp backends { q with results := [] } fast events).1.query.results).map fp).Nodup
      ∧ (∃ added,
          (run fp backends { q with results := [] } fast (events ++ [e])).1.query.results
              = (run fp backends { q with results := [] } fast events).1.query.results ++ added
            ∧ ∀ x ∈ added,
                fp x ∉ ((run fp backends { q with results := [] } fast events).1.query.results).map
                  fp)
      ∧ ((run fp backends { q with results := [] } fast events).1.cancelled = false →
          (run fp backends { q with results := [] } fast events).1.finished = false →
          ∃ added,
            (run fp backends { q with results := [] } fast
                (events ++ [PipelineEvent.delivered batch])).1.query.results
              = (run fp backends { q with results := [] } fast events).1.query.results ++ added
            ∧ added.Sublist batch
            ∧ (∀ r ∈ batch,
                fp r ∈ ((run fp backends { q with results := [] } fast
                  (events ++ [PipelineEvent.delivered batch])).1.query.results).map fp)
            ∧ (∀ r ∈ batch,
                fp r ∈ ((run fp backends { q with results := [] } fast
                    events).1.query.results).map fp →
                r ∉ added)
            ∧ ∀ x ∈ added,
                ∃ before after, batch = before ++ x :: after ∧ ∀ y ∈ before, fp y ≠ fp x)
      ∧ (run (fun r => r.track) scenarioBackends (karmaPolice []) false
            scenarioDeliveries).1.query.results
          = [resultWith "local" "f1" 0, resultWith "peer1" "f2" 1]
      ∧ (run (fun r => r.track) scenarioBackends (karmaPolice []) false
            scenarioDeliveries).1.query.results.length = 2
      ∧ (run (fun r => r.track) scenarioBackends (karmaPolice []) false
            [PipelineEvent.delivered
              [resultWith "local" "f1" 0, resultWith "local" "f2" 0, resultWith "local" "f3" 0],
             PipelineEvent.delivered [resultWith "peer1" "f2" 1]]).1.query.results
          = [resultWith "local" "f1" 0, resultWith "local" "f2" 0, resultWith "local" "f3" 0] := by
  refine ⟨?_, ?_, ?_, by decide, by decide, by decide⟩
  · apply foldl_nodup
    rw [resolve_query]
    exact List.nodup_nil
  · rw [run_snoc]
    obtain ⟨added, h1, h2, _⟩ :=
      step_results fp (run fp backends { q with results := [] } fast events).1 e
    exact ⟨added, h1, h2⟩
  · intro hc hf
    have hstep := step_delivered_live fp
      (run fp backends { q with results := [] } fast events).1 batch hc hf
    rw [run_snoc]
    simp only [advance]
    refine ⟨_, hstep, accept_sublist fp batch _, ?_, ?_, accept_first fp batch _⟩
    · intro r hr
      rw [hstep]
      exact accept_covers fp batch _ r hr
    · intro r _ hattached hmem
      exact accept_fresh fp batch _ r hmem hattached

/-- C11 at a batch with fingerprints f1, f1, f2 delivered to the scenario Query
right after its submission. -/
theorem results_have_distinct_fingerprints_witness :
    (run (fun r => r.track) scenarioBackends { karmaPolice [] with results := [] } false
        []).1.cancelled = false
      ∧ (run (fun r => r.track) scenarioBackends { karmaPolice [] with results := [] } false
          []).1.finished = false
      ∧ ∃ added,
          (run (fun r => r.track) scenarioBackends { karmaPolice [] with results := [] } false
              ([] ++ [PipelineEvent.delivered
                [resultWith "local" "f1" 0, resultWith "peer1" "f1" 1,
                  resultWith "peer1" "f2" 1]])).1.query.results
            = (run (fun r => r.track) scenarioBackends { karmaPolice [] with results := [] }
                false []).1.query.results ++ added
          ∧ added.Sublist
              [resultWith "local" "f1" 0, resultWith "peer1" "f1" 1, resultWith "peer1" "f2" 1]
          ∧ (∀ r ∈ [resultWith "local" "f1" 0, resultWith "peer1" "f1" 1,
                resultWith "peer1" "f2" 1],
              (fun r : Result => r.track) r
                ∈ ((run (fun r => r.track) scenarioBackends
                    { karmaPolice [] with results := [] } false
                    ([] ++ [PipelineEvent.delivered
                      [resultWith "local" "f1" 0, resultWith "peer1" "f1" 1,
                        resultWith "peer1" "f2" 1]])).1.query.results).map
                  (fun r => r.track))
          ∧ (∀ r ∈ [resultWith "local" "f1" 0, resultWith "peer1" "f1" 1,
                resultWith "peer1" "f2" 1],
              (fun r : Result => r.track) r
                  ∈ ((run (fun r => r.track) scenarioBackends
                      { karmaPolice [] with results := [] } false
                      []).1.query.results).map (fun r => r.track) →
                r ∉ added)
          ∧ ∀ x ∈ added,
              ∃ before after,
                [resultWith "local" "f1" 0, resultWith "peer1" "f1" 1, resultWith "peer1" "f2" 1]
                    = before ++ x :: after
                  ∧ ∀ y ∈ before, (fun r : Result => r.track) y ≠ (fun r : Result => r.track) x :=
  ⟨by decide, by decide,
    (results_have_distinct_fingerprints (fun r => r.track) scenarioBackends (karmaPolice [])
      false [] PipelineEvent.timeout
      [resultWith "local" "f1" 0, resultWith "peer1" "f1" 1, resultWith "peer1" "f2" 1]).2.2.1
      (by decide) (by decide)⟩

/-- C12 (as stated, it fails): a Query submitted to two backends and cancelled
at once receives no terminal notification, although both backends report
completion and the timeout elapses afterwards. -/
theorem cancelled_query_has_no_terminal :
    terminals
        (run (fun r => r.track) scenarioBackends (karmaPolice []) false
          [PipelineEvent.cancel, PipelineEvent.done "local", PipelineEvent.done "peer1",
            PipelineEvent.timeout]).2 = []
      ∧ (terminals
          (run (fun r => r.track) scenarioBackends (karmaPolice []) false
            [PipelineEvent.cancel, PipelineEvent.done "local", PipelineEvent.done "peer1",
              PipelineEvent.timeout]).2).length ≠ 1 := by
  decide

/-- C12 (amended): a Query submitted to the pipeline receives at most one
terminal notification; the terminal notification is the last notification of
the Query, its flag is true exactly when the Result list is non-empty, and the
list does not change afterwards; a Query that is not cancelled receives exactly
one once every dispatched backend has reported completion or the timeout has
elapsed; a Query cancelled before it finished receives none; a fresh Query
submitted with no backend to wait for is notified `resolvingFinished( false )`
and nothing else, so never `resultsAdded`. -/
theorem resolvingFinished_at_most_once (fp : Result → String) (backends : List Backend)
    (q : Query) (fast : Bool) (events : List PipelineEvent) :
    (terminals (run fp backends q fast events).2).length ≤ 1
      ∧ (∀ flag, flag ∈ terminals (run fp backends q fast events).2 →
          (∃ earlier,
              (run fp backends q fast events).2
                  = earlier ++ [QueryNotification.resolvingFinished flag]
                ∧ terminals earlier = [])
            ∧ (flag = true ↔ (run fp backends q fast events).1.query.results ≠ [])
            ∧ ∀ more, (run fp backends q fast (events ++ more)).1.query.results
                = (run fp backends q fast events).1.query.results)
      ∧ (PipelineEvent.cancel ∉ events →
          (PipelineEvent.timeout ∈ events
            ∨ ∀ b ∈ selectBackends backends fast, PipelineEvent.done b.name ∈ events) →
          (terminals (run fp backends q fast events).2).length = 1)
      ∧ ((run fp backends q fast events).1.finished = false →
          ∀ more, terminals
            (run fp backends q fast (events ++ PipelineEvent.cancel :: more)).2 = [])
      ∧ (selectBackends backends fast = [] → q.results = [] →
          (run fp backends q fast events).2 = [QueryNotification.resolvingFinished false]
            ∧ batches (run fp backends q fast events).2 = []) := by
  obtain ⟨hlive, hdone⟩ := run_consistent fp backends q fast events
  have hfin : (run fp backends q fast events).1.finished = true →
      terminals (run fp backends q fast events).2
        = [!(run fp backends q fast events).1.query.results.isEmpty] := by
    intro hf
    obtain ⟨earlier, heq, hterm⟩ := hdone hf
    rw [heq, terminals_append, hterm]
    rfl
  refine ⟨?_, ?_, ?_, ?_, ?_⟩
  · cases hf : (run fp backends q fast events).1.finished with
    | false => simp [hlive hf]
    | true => simp [hfin hf]
  · intro flag hflag
    cases hf : (run fp backends q fast events).1.finished with
    | false =>
      rw [hlive hf] at hflag
      exact absurd hflag (by simp)
    | true =>
      rw [hfin hf, List.mem_singleton] at hflag
      obtain ⟨earlier, heq, hterm⟩ := hdone hf
      refine ⟨⟨earlier, by rw [hflag]; exact heq, hterm⟩, ?_, ?_⟩
      · rw [hflag]
        cases (run fp backends q fast events).1.query.results <;> simp
      · intro more
        have h := foldl_of_finished fp more (run fp backends q fast events) hf
        have hrun : run fp backends q fast (events ++ more)
            = more.foldl (advance fp) (run fp backends q fast events) := by
          simp [Pipeline.run, List.foldl_append]
        rw [hrun, h.2.1]
  · intro hc hcomplete
    rw [hfin (run_finishes fp backends q fast events hc hcomplete)]
    rfl
  · intro hf more
    have hrun : run fp backends q fast (events ++ PipelineEvent.cancel :: more)
        = more.foldl (advance fp)
            (advance fp (run fp backends q fast events) PipelineEvent.cancel) := by
      simp [Pipeline.run, List.foldl_append]
    rw [hrun, foldl_of_cancelled fp more _ (by simp [advance, Pipeline.step])]
    simp only [advance, Pipeline.step, List.append_nil]
    exact hlive hf
  · intro hsel hq
    have hres : resolve backends q fast
        = ({ query := q, pending := [], finished := true, cancelled := false },
            [QueryNotification.resolvingFinished false]) := by
      simp [resolve, hsel, finish, hq]
    have h := foldl_of_finished fp events (resolve backends q fast) (by rw [hres])
    have h2 : (run fp backends q fast events).2 = [QueryNotification.resolvingFinished false] := by
      simp only [Pipeline.run]
      rw [h.2.2, hres]
    exact ⟨h2, by rw [h2]; rfl⟩

/-- C12 (amended) at the scenario Query: resolved by two backends that deliver
and report completion, and submitted with no backend at all. -/
theorem resolvingFinished_at_most_once_witness :
    (PipelineEvent.cancel ∉ scenarioDeliveries
          ++ [PipelineEvent.done "local", PipelineEvent.done "peer1"])
      ∧ (∀ b ∈ selectBackends scenarioBackends false,
          PipelineEvent.done b.name ∈ scenarioDeliveries
            ++ [PipelineEvent.done "local", PipelineEvent.done "peer1"])
      ∧ (terminals
          (run (fun r => r.track) scenarioBackends (karmaPolice []) false
            (scenarioDeliveries
              ++ [PipelineEvent.done "local", PipelineEvent.done "peer1"])).2).length = 1
      ∧ (run (fun r => r.track) [] (karmaPolice []) false scenarioDeliveries).2
          = [QueryNotification.resolvingFinished false] :=
  ⟨by decide, by decide,
    (resolvingFinished_at_most_once (fun r => r.track) scenarioBackends (karmaPolice []) false
      (scenarioDeliveries ++ [PipelineEvent.done "local", PipelineEvent.done "peer1"])).2.2.1
      (by decide) (Or.inr (by decide)),
    ((resolvingFinished_at_most_once (fun r => r.track) [] (karmaPolice []) false
      scenarioDeliveries).2.2.2.2 rfl rfl).1⟩

end Tomahawk
